import Mathlib

/-!
# Verification of the pulsar device-control backend

Shallow embedding of the core algorithms of the pulsar repository
(MicroPython IDE backend): the raw-REPL response parser, the chunked
base64 file transfer, recursive mkdir, the sync diff predicate, the
WebSocket event fan-out filter, the event-kind enumeration and its wire
topics, and the LSP Content-Length framing.

Byte strings (Python `bytes`) are modeled as `List Nat`; each element is
one byte.  Python `str` values that only travel through byte-level
protocol logic are modeled the same way, via their UTF-8 bytes.
-/

set_option maxHeartbeats 1000000

namespace Pulsar

/-- UTF-8 bytes of an ASCII string literal (all literals we use are ASCII,
where `Char.toNat` coincides with the single UTF-8 byte). -/
def strBytes (s : String) : List Nat := s.toList.map Char.toNat

/-! ## Raw REPL protocol — src/serial_comm/repl.py -/

/-- `REPLResult` dataclass from repl.py (output/error are modeled at the
byte level; `execute` decodes them with `errors="replace"`, which is the
identity on the byte content for our purposes). -/
structure REPLResult where
  output : List Nat
  error : List Nat
  success : Bool
deriving DecidableEq

/-- Python `bytes.split(sep)` for a single-byte separator. -/
def splitOnByte (c : Nat) : List Nat → List (List Nat)
  | [] => [[]]
  | b :: bs =>
    if b = c then [] :: splitOnByte c bs
    else
      match splitOnByte c bs with
      | [] => [[b]]
      | g :: gs => (b :: g) :: gs

/-- Python `bytes.rstrip(b">")`: drop all trailing `>` (byte 62). -/
def rstripGT (l : List Nat) : List Nat :=
  (l.reverse.dropWhile (fun b => b = 62)).reverse

/-- `RawREPL._read_raw_response`, lines 201–207 of repl.py: split the
accumulated payload on 0x04; with at least two parts, `parts[0]` is the
output and `parts[1]` with trailing `>` stripped is the error; otherwise
both stay empty. -/
def RawREPL.readRawResponse (data : List Nat) : List Nat × List Nat :=
  let parts := splitOnByte 4 data
  if 2 ≤ parts.length then (parts.headI, rstripGT parts.tail.headI)
  else ([], [])

/-- `RawREPL.execute`, lines 148–169 of repl.py, after the `OK`
acknowledgement: `none` models the device never completing the
`\x04>`-terminated response (the `asyncio.TimeoutError` branch); `some
data` models the accumulated post-`OK` payload.  `success` is
`not bool(error)`. -/
def RawREPL.execute (deviceData : Option (List Nat)) : REPLResult :=
  match deviceData with
  | none => ⟨[], strBytes "Execution timeout", false⟩
  | some data =>
    let p := RawREPL.readRawResponse data
    ⟨p.1, p.2, p.2.isEmpty⟩

lemma splitOnByte_ne_nil (c : Nat) (l : List Nat) : splitOnByte c l ≠ [] := by
  cases l with
  | nil => simp [splitOnByte]
  | cons b bs =>
    simp only [splitOnByte]
    split
    · simp
    · cases h : splitOnByte c bs <;> simp

lemma splitOnByte_append (c : Nat) (xs ys : List Nat) (h : c ∉ xs) :
    splitOnByte c (xs ++ c :: ys) = xs :: splitOnByte c ys := by
  induction xs with
  | nil => simp [splitOnByte]
  | cons b bs ih =>
    have hb : b ≠ c := fun hbc => h (by simp [hbc])
    have hbs : c ∉ bs := fun hm => h (by simp [hm])
    simp only [List.cons_append, splitOnByte, if_neg hb, List.append_eq, ih hbs]

lemma splitOnByte_not_mem (c : Nat) (l : List Nat) (h : c ∉ l) :
    splitOnByte c l = [l] := by
  induction l with
  | nil => simp [splitOnByte]
  | cons b bs ih =>
    have hb : b ≠ c := fun hbc => h (by simp [hbc])
    have hbs : c ∉ bs := fun hm => h (by simp [hm])
    simp only [splitOnByte, if_neg hb, ih hbs]

lemma readRawResponse_frame (out err : List Nat) (hout : 4 ∉ out) (herr : 4 ∉ err) :
    RawREPL.readRawResponse (out ++ 4 :: (err ++ 4 :: [62])) = (out, rstripGT err) := by
  have h1 : splitOnByte 4 (out ++ 4 :: (err ++ 4 :: [62]))
      = out :: err :: splitOnByte 4 [62] := by
    rw [splitOnByte_append 4 out _ hout, splitOnByte_append 4 err _ herr]
  have h2 : splitOnByte 4 [62] = [[62]] := by
    apply splitOnByte_not_mem; simp
  unfold RawREPL.readRawResponse
  rw [h1, h2]
  simp [List.headI]

/-- C1: for a simulated device reply `OK<stdout>\x04<stderr>\x04>` (the part
after `OK` is the accumulated payload), `execute` returns the stdout bytes
as `output`, the stderr bytes with trailing `>` stripped as `error`, and
`success` is true iff that error is empty. -/
theorem execute_raw_roundtrip (out err : List Nat) (hout : 4 ∉ out) (herr : 4 ∉ err) :
    RawREPL.execute (some (out ++ 4 :: (err ++ 4 :: [62])))
      = ⟨out, rstripGT err, (rstripGT err).isEmpty⟩
    ∧ ((RawREPL.execute (some (out ++ 4 :: (err ++ 4 :: [62])))).success = true
        ↔ rstripGT err = []) := by
  have h := readRawResponse_frame out err hout herr
  constructor
  · simp [RawREPL.execute, h]
  · simp [RawREPL.execute, h, List.isEmpty_iff]

/-- Witness for C1 at stdout = "3\n", stderr = "". -/
theorem execute_raw_roundtrip_witness :
    RawREPL.execute (some (strBytes "3\n" ++ 4 :: (([] : List Nat) ++ 4 :: [62])))
      = ⟨strBytes "3\n", rstripGT [], (rstripGT []).isEmpty⟩ :=
  (execute_raw_roundtrip (strBytes "3\n") [] (by decide) (by decide)).1

/-- C4 counterexample: on device timeout the error string produced by the
code is "Execution timeout", not "timeout" as the claim states. -/
theorem execute_timeout_counterexample :
    (RawREPL.execute none).error ≠ strBytes "timeout" := by
  decide

/-- C4 (amended): if the device never emits the terminating `\x04>`
sequence, `execute` returns output "", error "Execution timeout",
success false. -/
theorem execute_timeout_result :
    RawREPL.execute none = ⟨[], strBytes "Execution timeout", false⟩ := by
  rfl

/-! ## WebSocket event fan-out — src/server/websocket.py -/

/-- A connected WebSocket client with its subscription set (modeled as the
list of subscribed port strings). -/
structure WSClient where
  id : Nat
  subs : List String
deriving DecidableEq

/-- The send condition of `WebSocketHandler._on_event`, line 166:
`if not subs or port in subs or not port`. -/
def shouldSend (subs : List String) (source : String) : Bool :=
  subs.isEmpty || subs.contains source || source.isEmpty

/-- `WebSocketHandler._on_event`: iterate current sockets and send the
event to exactly those satisfying the condition. -/
def broadcastRecipients (clients : List WSClient) (source : String) : List WSClient :=
  clients.filter (fun c => shouldSend c.subs source)

/-- C5: the gateway sends an event to a connected client iff the source is
empty, or the client's subscription set is empty, or the source is in the
subscription set; hence a client with a non-empty subscription set never
receives a device-scoped event whose source is not in the set. -/
theorem ws_subscription_filtering (clients : List WSClient) (source : String) (c : WSClient) :
    c ∈ broadcastRecipients clients source
      ↔ c ∈ clients ∧ (source = "" ∨ c.subs = [] ∨ source ∈ c.subs) := by
  simp only [broadcastRecipients, List.mem_filter, shouldSend, Bool.or_eq_true,
    List.isEmpty_iff, List.contains, List.elem_iff, String.isEmpty_iff]
  tauto

/-! ## Sync file records — src/tools/sync.py -/

/-- `SyncFile` dataclass (hash fields only; the rest does not influence
`needs_upload`). -/
structure SyncFile where
  path : String
  size : Nat
  localHash : Option String
  remoteHash : Option String
deriving DecidableEq

/-- `SyncFile.needs_upload` property, lines 27–34 of sync.py. -/
def SyncFile.needs_upload (f : SyncFile) : Bool :=
  match f.localHash with
  | none => false
  | some lh =>
    match f.remoteHash with
    | none => true
    | some rh => lh ≠ rh

/-- C6: `needs_upload` is true iff the local hash is present and the remote
hash is absent or differs from it; in particular it is false whenever the
local hash is absent. -/
theorem needs_upload_iff (f : SyncFile) :
    f.needs_upload = true
      ↔ f.localHash ≠ none ∧ (f.remoteHash = none ∨ f.remoteHash ≠ f.localHash) := by
  cases hl : f.localHash with
  | none => simp [SyncFile.needs_upload, hl]
  | some lh =>
    cases hr : f.remoteHash with
    | none => simp [SyncFile.needs_upload, hl, hr]
    | some rh =>
      simp only [SyncFile.needs_upload, hl, hr, ne_eq, decide_eq_true_eq]
      constructor
      · intro h
        refine ⟨by simp, Or.inr fun hc => ?_⟩
        exact h (Option.some.inj hc).symm
      · rintro ⟨-, h | h⟩
        · exact absurd h (by simp)
        · exact fun hc => h (congrArg some hc.symm)

/-! ## Event kinds and wire topics — src/core/events.py -/

/-- The `EventType` enum of events.py, lines 13–60, in source order. -/
inductive EventType where
  | DEVICE_DISCOVERED
  | DEVICE_CONNECTED
  | DEVICE_DISCONNECTED
  | DEVICE_ERROR
  | DEVICE_OUTPUT
  | PORTS_UPDATED
  | FILE_PROGRESS
  | FILE_UPLOADED
  | FILE_DOWNLOADED
  | FILE_DELETED
  | REPL_INPUT
  | REPL_OUTPUT
  | REPL_ERROR
  | DEVICE_RESET
  | DEVICE_INTERRUPTED
  | FIRMWARE_PROGRESS
  | FIRMWARE_COMPLETE
  | FIRMWARE_ERROR
  | WIFI_SCAN_RESULT
  | WIFI_CONNECTED
  | WIFI_DISCONNECTED
  | APP_READY
  | APP_SHUTDOWN
  | CONFIG_CHANGED
  | LSP_INITIALIZED
  | LSP_DIAGNOSTICS
  | LSP_ERROR
  | LSP_SHUTDOWN
deriving DecidableEq

/-- `EventType.name` (Python `Enum` member name). -/
def EventType.name : EventType → String
  | .DEVICE_DISCOVERED => "DEVICE_DISCOVERED"
  | .DEVICE_CONNECTED => "DEVICE_CONNECTED"
  | .DEVICE_DISCONNECTED => "DEVICE_DISCONNECTED"
  | .DEVICE_ERROR => "DEVICE_ERROR"
  | .DEVICE_OUTPUT => "DEVICE_OUTPUT"
  | .PORTS_UPDATED => "PORTS_UPDATED"
  | .FILE_PROGRESS => "FILE_PROGRESS"
  | .FILE_UPLOADED => "FILE_UPLOADED"
  | .FILE_DOWNLOADED => "FILE_DOWNLOADED"
  | .FILE_DELETED => "FILE_DELETED"
  | .REPL_INPUT => "REPL_INPUT"
  | .REPL_OUTPUT => "REPL_OUTPUT"
  | .REPL_ERROR => "REPL_ERROR"
  | .DEVICE_RESET => "DEVICE_RESET"
  | .DEVICE_INTERRUPTED => "DEVICE_INTERRUPTED"
  | .FIRMWARE_PROGRESS => "FIRMWARE_PROGRESS"
  | .FIRMWARE_COMPLETE => "FIRMWARE_COMPLETE"
  | .FIRMWARE_ERROR => "FIRMWARE_ERROR"
  | .WIFI_SCAN_RESULT => "WIFI_SCAN_RESULT"
  | .WIFI_CONNECTED => "WIFI_CONNECTED"
  | .WIFI_DISCONNECTED => "WIFI_DISCONNECTED"
  | .APP_READY => "APP_READY"
  | .APP_SHUTDOWN => "APP_SHUTDOWN"
  | .CONFIG_CHANGED => "CONFIG_CHANGED"
  | .LSP_INITIALIZED => "LSP_INITIALIZED"
  | .LSP_DIAGNOSTICS => "LSP_DIAGNOSTICS"
  | .LSP_ERROR => "LSP_ERROR"
  | .LSP_SHUTDOWN => "LSP_SHUTDOWN"

/-- All members of the enum, in source order. -/
def allEventTypes : List EventType :=
  [.DEVICE_DISCOVERED, .DEVICE_CONNECTED, .DEVICE_DISCONNECTED, .DEVICE_ERROR,
   .DEVICE_OUTPUT, .PORTS_UPDATED, .FILE_PROGRESS, .FILE_UPLOADED,
   .FILE_DOWNLOADED, .FILE_DELETED, .REPL_INPUT, .REPL_OUTPUT, .REPL_ERROR,
   .DEVICE_RESET, .DEVICE_INTERRUPTED, .FIRMWARE_PROGRESS, .FIRMWARE_COMPLETE,
   .FIRMWARE_ERROR, .WIFI_SCAN_RESULT, .WIFI_CONNECTED, .WIFI_DISCONNECTED,
   .APP_READY, .APP_SHUTDOWN, .CONFIG_CHANGED, .LSP_INITIALIZED,
   .LSP_DIAGNOSTICS, .LSP_ERROR, .LSP_SHUTDOWN]

/-- ASCII lowercase of a string (Python `str.lower` on the ASCII names
involved here). -/
def lowerAscii (s : String) : String := String.mk (s.toList.map Char.toLower)

/-- Python `s.split("_", 1)` when "_" occurs: the part before the first
underscore and the part after it; `none` when no underscore occurs. -/
def splitFirstUnderscore : List Char → Option (List Char × List Char)
  | [] => none
  | c :: cs =>
    if c = '_' then some ([], cs)
    else
      match splitFirstUnderscore cs with
      | none => none
      | some (a, b) => some (c :: a, b)

/-- The wire `type` field computed by `Event.to_dict`, lines 72–85 of
events.py: lowercase the kind's name; if it contains an underscore, split
at the first one and rejoin with `:`. -/
def eventTopic (e : EventType) : String :=
  let n := lowerAscii e.name
  match splitFirstUnderscore n.toList with
  | none => n
  | some (a, b) => String.mk (a ++ ':' :: b)

/-- Modelled from the spec: the topic is "derived by lowercasing its name
and replacing the first underscore with ':'" — directly replace the first
underscore character. -/
def replaceFirstUnderscore : List Char → List Char
  | [] => []
  | c :: cs => if c = '_' then ':' :: cs else c :: replaceFirstUnderscore cs

/-- Spec-side topic derivation, to compare against `eventTopic`. -/
def specTopic (e : EventType) : String :=
  String.mk (replaceFirstUnderscore (lowerAscii e.name).toList)

/-- The closed enumeration of event kinds asserted by the claim. -/
def claimedEventKinds : List String :=
  ["PORT_ADDED", "PORT_REMOVED", "INVENTORY", "DEVICE_CONNECTING",
   "DEVICE_CONNECTED", "DEVICE_DISCONNECTED", "DEVICE_ERROR", "DEVICE_OUTPUT",
   "DEVICE_RESET", "DEVICE_INTERRUPTED", "FILE_PROGRESS", "FILE_UPLOADED",
   "FILE_DOWNLOADED", "FILE_DELETED", "FIRMWARE_PROGRESS", "FIRMWARE_COMPLETE",
   "FIRMWARE_ERROR", "WIFI_SCAN_RESULT", "WIFI_CONNECTED", "WIFI_DISCONNECTED",
   "LSP_INITIALIZED", "LSP_DIAGNOSTICS", "LSP_ERROR", "LSP_SHUTDOWN",
   "APP_READY", "APP_SHUTDOWN", "CONFIG_CHANGED"]

/-- C8 counterexample: "PORT_ADDED" is in the claimed enumeration, but no
event kind of the program has that name (and conversely the program kind
"DEVICE_DISCOVERED" is absent from the claimed enumeration). -/
theorem event_kinds_counterexample :
    "PORT_ADDED" ∈ claimedEventKinds
      ∧ (∀ e : EventType, e.name ≠ "PORT_ADDED")
      ∧ "DEVICE_DISCOVERED" ∉ claimedEventKinds
      ∧ EventType.DEVICE_DISCOVERED.name = "DEVICE_DISCOVERED" := by
  refine ⟨by decide, fun e => ?_, by decide, rfl⟩
  cases e <;> decide

/-- C8 (amended): the event kinds defined by the program are exactly
DEVICE_DISCOVERED, DEVICE_CONNECTED, DEVICE_DISCONNECTED, DEVICE_ERROR,
DEVICE_OUTPUT, PORTS_UPDATED, FILE_PROGRESS, FILE_UPLOADED,
FILE_DOWNLOADED, FILE_DELETED, REPL_INPUT, REPL_OUTPUT, REPL_ERROR,
DEVICE_RESET, DEVICE_INTERRUPTED, FIRMWARE_PROGRESS, FIRMWARE_COMPLETE,
FIRMWARE_ERROR, WIFI_SCAN_RESULT, WIFI_CONNECTED, WIFI_DISCONNECTED,
APP_READY, APP_SHUTDOWN, CONFIG_CHANGED, LSP_INITIALIZED, LSP_DIAGNOSTICS,
LSP_ERROR, LSP_SHUTDOWN; each kind's wire topic lowercases the name and
replaces the first underscore with ':'. -/
theorem event_kinds_enumeration :
    (∀ e : EventType, e ∈ allEventTypes)
      ∧ allEventTypes.map EventType.name
          = ["DEVICE_DISCOVERED", "DEVICE_CONNECTED", "DEVICE_DISCONNECTED",
             "DEVICE_ERROR", "DEVICE_OUTPUT", "PORTS_UPDATED", "FILE_PROGRESS",
             "FILE_UPLOADED", "FILE_DOWNLOADED", "FILE_DELETED", "REPL_INPUT",
             "REPL_OUTPUT", "REPL_ERROR", "DEVICE_RESET", "DEVICE_INTERRUPTED",
             "FIRMWARE_PROGRESS", "FIRMWARE_COMPLETE", "FIRMWARE_ERROR",
             "WIFI_SCAN_RESULT", "WIFI_CONNECTED", "WIFI_DISCONNECTED",
             "APP_READY", "APP_SHUTDOWN", "CONFIG_CHANGED", "LSP_INITIALIZED",
             "LSP_DIAGNOSTICS", "LSP_ERROR", "LSP_SHUTDOWN"]
      ∧ (allEventTypes.map EventType.name).Nodup
      ∧ (∀ e : EventType, eventTopic e = specTopic e) := by
  refine ⟨fun e => ?_, by decide, by decide, fun e => ?_⟩
  · cases e <;> decide
  · cases e <;> rfl

/-! ## Recursive mkdir — src/serial_comm/file_transfer.py, lines 222–251

The device filesystem is modeled as the set (list) of existing directories,
each identified by its component path; `[]` is the root `/`, which always
exists.  The on-device `os.mkdir` raises EEXIST (errno 17) when the
directory exists — the generated probe prints `EXISTS` and the host
tolerates it — creates the directory when its parent exists, and otherwise
fails with another `OSError`, which the probe prints as `ERROR` and which
makes `mkdir` return `False` at once. -/

/-- The component split of `FileTransfer.mkdir`: `PurePosixPath(path).parts`
with empty and `"/"` parts skipped — i.e. the nonempty `/`-separated
components. -/
def pathParts (p : String) : List String :=
  (p.splitOn "/").filter (fun s => s ≠ "")

/-- The per-component loop of `FileTransfer.mkdir`: `cur` is the directory
built so far (`[]` = `/`), and each step runs the on-device mkdir probe for
`cur ++ [part]`. -/
def mkdirParts (dirs : List (List String)) (cur : List String) :
    List String → Bool × List (List String)
  | [] => (true, dirs)
  | part :: rest =>
    let d := cur ++ [part]
    if d ∈ dirs then mkdirParts dirs d rest
    else if cur = [] ∨ cur ∈ dirs then mkdirParts (d :: dirs) d rest
    else (false, dirs)

/-- `FileTransfer.mkdir`: split the path into components and create each in
order, treating EEXIST as success; returns the success flag and the
directory set afterwards. -/
def FileTransfer.mkdir (dirs : List (List String)) (p : String) :
    Bool × List (List String) :=
  mkdirParts dirs [] (pathParts p)

lemma mkdirParts_run (parts : List String) :
    ∀ dirs cur, (cur = [] ∨ cur ∈ dirs) →
      (mkdirParts dirs cur parts).1 = true
      ∧ (∀ x ∈ dirs, x ∈ (mkdirParts dirs cur parts).2)
      ∧ ∀ k, 0 < k → k ≤ parts.length →
          cur ++ parts.take k ∈ (mkdirParts dirs cur parts).2 := by
  induction parts with
  | nil =>
    intro dirs cur _
    exact ⟨rfl, fun x hx => hx, fun k hk0 hklen => by simp at hklen; omega⟩
  | cons part rest ih =>
    intro dirs cur hcur
    by_cases hd : cur ++ [part] ∈ dirs
    · have h := ih dirs (cur ++ [part]) (Or.inr hd)
      simp only [mkdirParts, if_pos hd]
      refine ⟨h.1, h.2.1, fun k hk0 hklen => ?_⟩
      cases k with
      | zero => omega
      | succ j =>
        have heq : cur ++ (part :: rest).take (j + 1)
            = (cur ++ [part]) ++ rest.take j := by
          simp
        rw [heq]
        cases Nat.eq_zero_or_pos j with
        | inl hj => subst hj; simpa using h.2.1 _ hd
        | inr hj =>
          exact h.2.2 j hj (by simpa using hklen)
    · have h := ih ((cur ++ [part]) :: dirs) (cur ++ [part])
        (Or.inr (List.mem_cons_self _ _))
      simp only [mkdirParts, if_neg hd, if_pos hcur]
      refine ⟨h.1, fun x hx => h.2.1 x (List.mem_cons_of_mem _ hx),
        fun k hk0 hklen => ?_⟩
      cases k with
      | zero => omega
      | succ j =>
        have heq : cur ++ (part :: rest).take (j + 1)
            = (cur ++ [part]) ++ rest.take j := by
          simp
        rw [heq]
        cases Nat.eq_zero_or_pos j with
        | inl hj => subst hj; simpa using h.2.1 _ (List.mem_cons_self _ _)
        | inr hj =>
          exact h.2.2 j hj (by simpa using hklen)

lemma mkdirParts_all_exist (parts : List String) :
    ∀ dirs cur,
      (∀ k, 0 < k → k ≤ parts.length → cur ++ parts.take k ∈ dirs) →
      mkdirParts dirs cur parts = (true, dirs) := by
  induction parts with
  | nil => intro dirs cur _; rfl
  | cons part rest ih =>
    intro dirs cur hall
    have hd : cur ++ [part] ∈ dirs := by
      simpa using hall 1 (by omega) (by simp)
    simp only [mkdirParts, if_pos hd]
    apply ih
    intro k hk0 hklen
    have := hall (k + 1) (by omega) (by simp; omega)
    simpa [List.append_assoc] using this

/-- C7: `mkdir` splits the path into components and creates each in order,
tolerating EEXIST; it succeeds whether the path already exists or not, and
a second call succeeds as well and leaves the directory set unchanged. -/
theorem mkdir_idempotent (dirs : List (List String)) (p : String) :
    (FileTransfer.mkdir dirs p).1 = true
      ∧ FileTransfer.mkdir (FileTransfer.mkdir dirs p).2 p
          = (true, (FileTransfer.mkdir dirs p).2) := by
  have h := mkdirParts_run (pathParts p) dirs [] (Or.inl rfl)
  refine ⟨h.1, ?_⟩
  unfold FileTransfer.mkdir
  apply mkdirParts_all_exist
  intro k hk0 hklen
  simpa using h.2.2 k hk0 hklen

/-! ## Base64 codec

`file_transfer.py` moves file bytes over the REPL as base64 text: the host
uses the `base64` module, the device uses `ubinascii`; both implement the
standard RFC 4648 alphabet with `=` padding.  We embed that codec once and
use it for both endpoints. -/

/-- The standard base64 alphabet, as ASCII bytes. -/
def b64Alphabet : List Nat :=
  strBytes "ABCDEFGHIJKLMNOPQRSTUVWXYZabcdefghijklmnopqrstuvwxyz0123456789+/"

/-- Byte of the base64 character for a 6-bit value. -/
def valToChar (v : Nat) : Nat := b64Alphabet.getD v 65

/-- 6-bit value of a base64 character byte; `none` for non-alphabet bytes
(`=` padding, newlines), which the decoder discards. -/
def charToVal (c : Nat) : Option Nat :=
  let i := b64Alphabet.indexOf c
  if i < 64 then some i else none

/-- Base64 encoding of a byte string (with `=` padding). -/
def encodeB64 : List Nat → List Nat
  | a :: b :: c :: rest =>
    valToChar (a / 4) :: valToChar (a % 4 * 16 + b / 16)
      :: valToChar (b % 16 * 4 + c / 64) :: valToChar (c % 64) :: encodeB64 rest
  | [a, b] =>
    [valToChar (a / 4), valToChar (a % 4 * 16 + b / 16), valToChar (b % 16 * 4), 61]
  | [a] => [valToChar (a / 4), valToChar (a % 4 * 16), 61, 61]
  | [] => []

/-- Reassemble bytes from a list of 6-bit values (padding already
discarded): full groups of four yield three bytes, a trailing group of two
or three yields one or two bytes. -/
def decodeVals : List Nat → List Nat
  | v1 :: v2 :: v3 :: v4 :: rest =>
    (v1 * 4 + v2 / 16) :: (v2 % 16 * 16 + v3 / 4) :: (v3 % 4 * 64 + v4)
      :: decodeVals rest
  | [v1, v2] => [v1 * 4 + v2 / 16]
  | [v1, v2, v3] => [v1 * 4 + v2 / 16, v2 % 16 * 16 + v3 / 4]
  | _ => []

/-- Base64 decoding of an ASCII byte string; non-alphabet bytes (padding,
newlines) are discarded, as `base64.b64decode`/`ubinascii.a2b_base64` do. -/
def decodeB64 (l : List Nat) : List Nat := decodeVals (l.filterMap charToVal)

lemma charToVal_valToChar : ∀ v < 64, charToVal (valToChar v) = some v := by
  decide

lemma charToVal_eq : charToVal 61 = none ∧ charToVal 13 = none ∧ charToVal 10 = none := by
  decide

lemma decodeB64_encodeB64 :
    ∀ (n : Nat) (l : List Nat), l.length ≤ n → (∀ b ∈ l, b < 256) →
      decodeB64 (encodeB64 l) = l := by
  intro n
  induction n with
  | zero =>
    intro l hl _
    have : l = [] := List.eq_nil_of_length_eq_zero (by omega)
    subst this
    rfl
  | succ n ih =>
    intro l hl hb
    match l with
    | [] => rfl
    | [a] =>
      have ha : a < 256 := hb a (by simp)
      have h1 := charToVal_valToChar (a / 4) (by omega)
      have h2 := charToVal_valToChar (a % 4 * 16) (by omega)
      simp only [encodeB64, decodeB64, List.filterMap_cons, h1, h2,
        charToVal_eq.1, List.filterMap_nil, decodeVals]
      have : a / 4 * 4 + a % 4 * 16 / 16 = a := by omega
      rw [this]
    | [a, b] =>
      have ha : a < 256 := hb a (by simp)
      have hbb : b < 256 := hb b (by simp)
      have h1 := charToVal_valToChar (a / 4) (by omega)
      have h2 := charToVal_valToChar (a % 4 * 16 + b / 16) (by omega)
      have h3 := charToVal_valToChar (b % 16 * 4) (by omega)
      simp only [encodeB64, decodeB64, List.filterMap_cons, h1, h2, h3,
        charToVal_eq.1, List.filterMap_nil, decodeVals]
      have e1 : a / 4 * 4 + (a % 4 * 16 + b / 16) / 16 = a := by omega
      have e2 : (a % 4 * 16 + b / 16) % 16 * 16 + b % 16 * 4 / 4 = b := by omega
      rw [e1, e2]
    | a :: b :: c :: rest =>
      have ha : a < 256 := hb a (by simp)
      have hbb : b < 256 := hb b (by simp)
      have hc : c < 256 := hb c (by simp)
      have h1 := charToVal_valToChar (a / 4) (by omega)
      have h2 := charToVal_valToChar (a % 4 * 16 + b / 16) (by omega)
      have h3 := charToVal_valToChar (b % 16 * 4 + c / 64) (by omega)
      have h4 := charToVal_valToChar (c % 64) (by omega)
      have hrest : decodeB64 (encodeB64 rest) = rest := by
        apply ih rest (by simp at hl; omega)
        intro x hx
        exact hb x (by simp [hx])
      simp only [encodeB64, decodeB64, List.filterMap_cons, h1, h2, h3, h4, decodeVals]
      have e1 : a / 4 * 4 + (a % 4 * 16 + b / 16) / 16 = a := by omega
      have e2 : (a % 4 * 16 + b / 16) % 16 * 16 + (b % 16 * 4 + c / 64) / 4 = b := by
        omega
      have e3 : (b % 16 * 4 + c / 64) % 4 * 64 + c % 64 = c := by omega
      rw [e1, e2, e3]
      simp only [decodeB64] at hrest
      rw [hrest]

lemma decodeB64_append_crlf (l : List Nat) :
    decodeB64 (l ++ [13, 10]) = decodeB64 l := by
  simp [decodeB64, List.filterMap_append, charToVal_eq.2.1, charToVal_eq.2.2]

/-! ## Decimal size probe

`read_file` first executes an `os.stat` probe on the device that prints the
file size, and parses it with `int(result.output.strip())` — raising
`FileNotFoundError` when the output (for instance `ERROR: ...` from a
failed stat) is not an integer literal. -/

/-- ASCII whitespace stripped by Python `str.strip()`. -/
def isSpaceByte (b : Nat) : Bool :=
  b = 32 || b = 9 || b = 10 || b = 13 || b = 11 || b = 12

/-- Python `str.strip()` on a byte string. -/
def pyStrip (l : List Nat) : List Nat :=
  ((l.dropWhile isSpaceByte).reverse.dropWhile isSpaceByte).reverse

/-- ASCII decimal digit. -/
def isDigitByte (b : Nat) : Bool := 48 ≤ b && b ≤ 57

/-- Value of a decimal digit string (most significant first). -/
def digitsVal (l : List Nat) : Nat := l.foldl (fun acc d => acc * 10 + (d - 48)) 0

/-- `int(s.strip())` restricted to the non-negative case (sizes printed by
`os.stat` are non-negative decimals; anything else — such as the `ERROR:`
line — fails to parse). -/
def parsePyNat (l : List Nat) : Option Nat :=
  let s := pyStrip l
  if s.isEmpty then none
  else if s.all isDigitByte then some (digitsVal s) else none

/-- Decimal digits of `n`, least significant first. -/
def natDecDigitsRev (n : Nat) : List Nat :=
  if n < 10 then [n] else n % 10 :: natDecDigitsRev (n / 10)
termination_by n
decreasing_by omega

/-- ASCII bytes of the decimal representation of `n` (what the device's
`print(stat[6])` emits, before the trailing CRLF). -/
def natDecBytes (n : Nat) : List Nat :=
  ((natDecDigitsRev n).map (fun d => d + 48)).reverse

lemma natDecDigitsRev_lt10 (n : Nat) : ∀ d ∈ natDecDigitsRev n, d < 10 := by
  induction n using Nat.strong_induction_on with
  | _ n ih =>
    rw [natDecDigitsRev]
    split
    · intro d hd
      simp only [List.mem_singleton] at hd
      omega
    · intro d hd
      rcases List.mem_cons.mp hd with h | h
      · omega
      · exact ih (n / 10) (by omega) d h

lemma natDecDigitsRev_ne_nil (n : Nat) : natDecDigitsRev n ≠ [] := by
  rw [natDecDigitsRev]
  split <;> simp

/-- Value of a digit list, least significant first. -/
def lsbVal : List Nat → Nat
  | [] => 0
  | d :: ds => d + 10 * lsbVal ds

lemma lsbVal_natDecDigitsRev (n : Nat) : lsbVal (natDecDigitsRev n) = n := by
  induction n using Nat.strong_induction_on with
  | _ n ih =>
    rw [natDecDigitsRev]
    split
    · simp [lsbVal]
    · rw [lsbVal, ih (n / 10) (by omega)]
      omega

lemma digitsVal_reverse_map (l : List Nat) :
    digitsVal ((l.map (fun d => d + 48)).reverse) = lsbVal l := by
  induction l with
  | nil => rfl
  | cons d ds ih =>
    simp only [List.map_cons, List.reverse_cons, lsbVal]
    unfold digitsVal
    rw [List.foldl_append]
    unfold digitsVal at ih
    rw [ih]
    simp only [List.foldl_cons, List.foldl_nil]
    omega

lemma digit_not_space (b : Nat) (h : isDigitByte b = true) : isSpaceByte b = false := by
  simp only [isDigitByte, Bool.and_eq_true, decide_eq_true_eq] at h
  simp only [isSpaceByte, Bool.or_eq_false_iff, decide_eq_false_iff_not]
  omega

lemma dropWhile_space_digits (l : List Nat) (hd : ∀ b ∈ l, isDigitByte b = true) :
    l.dropWhile isSpaceByte = l := by
  cases l with
  | nil => rfl
  | cons a t =>
    rw [List.dropWhile_cons, if_neg]
    simp [digit_not_space a (hd a (by simp))]

lemma natDecBytes_digits (n : Nat) : ∀ b ∈ natDecBytes n, isDigitByte b = true := by
  intro b hb
  simp only [natDecBytes, List.mem_reverse, List.mem_map] at hb
  obtain ⟨d, hd, rfl⟩ := hb
  have := natDecDigitsRev_lt10 n d hd
  simp only [isDigitByte, Bool.and_eq_true, decide_eq_true_eq]
  omega

lemma natDecBytes_ne_nil (n : Nat) : natDecBytes n ≠ [] := by
  simp [natDecBytes, natDecDigitsRev_ne_nil]

lemma pyStrip_digits_crlf (l : List Nat) (hne : l ≠ [])
    (hd : ∀ b ∈ l, isDigitByte b = true) : pyStrip (l ++ [13, 10]) = l := by
  unfold pyStrip
  have h1 : (l ++ [13, 10]).dropWhile isSpaceByte = l ++ [13, 10] := by
    cases l with
    | nil => exact absurd rfl hne
    | cons a t =>
      rw [List.cons_append, List.dropWhile_cons, if_neg]
      simp [digit_not_space a (hd a (by simp))]
  rw [h1]
  have h2 : (l ++ [13, 10]).reverse = 10 :: 13 :: l.reverse := by
    simp
  rw [h2]
  have h3 : (10 :: 13 :: l.reverse).dropWhile isSpaceByte = l.reverse.dropWhile isSpaceByte := by
    rw [List.dropWhile_cons, if_pos (by simp [isSpaceByte]),
      List.dropWhile_cons, if_pos (by simp [isSpaceByte])]
  rw [h3, dropWhile_space_digits _ (fun b hb => hd b (List.mem_reverse.mp hb)),
    List.reverse_reverse]

lemma parsePyNat_natDecBytes (n : Nat) :
    parsePyNat (natDecBytes n ++ [13, 10]) = some n := by
  unfold parsePyNat
  rw [pyStrip_digits_crlf _ (natDecBytes_ne_nil n) (natDecBytes_digits n)]
  rw [if_neg (by simp [List.isEmpty_iff, natDecBytes_ne_nil n]),
    if_pos (by rw [List.all_eq_true]; exact natDecBytes_digits n)]
  unfold natDecBytes
  rw [digitsVal_reverse_map, lsbVal_natDecDigitsRev]

/-! ## File transfer — src/serial_comm/file_transfer.py, lines 85–185 -/

/-- Device filesystem contents: path ↦ file bytes. -/
abbrev Fs := List (String × List Nat)

def fsGet (fs : Fs) (p : String) : Option (List Nat) :=
  (fs.find? (fun e => e.1 == p)).map (fun e => e.2)

def fsSet (fs : Fs) (p : String) (c : List Nat) : Fs := (p, c) :: fs

lemma fsGet_fsSet (fs : Fs) (p : String) (c : List Nat) :
    fsGet (fsSet fs p c) p = some c := by
  simp [fsGet, fsSet, List.find?_cons_of_pos]

/-- The chunk loop of `write_file` (lines 153–171): starting from the
freshly truncated (`open(path, 'wb')`) device file, repeatedly append the
device-side base64 decode (`ubinascii.a2b_base64`) of the host-side encode
of the next ≤512-byte slice, until the content is exhausted. -/
def writeLoop (dev : List Nat) (remaining : List Nat) : List Nat :=
  if _h : remaining = [] then dev
  else writeLoop (dev ++ decodeB64 (encodeB64 (remaining.take 512))) (remaining.drop 512)
termination_by remaining.length
decreasing_by
  simp only [List.length_drop]
  have := List.length_pos.mpr _h
  omega

/-- `FileTransfer.write_file`: the device file at `path` afterwards holds
exactly what the chunk loop wrote (the `mkdir` of the parent directory
touches only directories, not file contents). -/
def FileTransfer.write_file (fs : Fs) (p : String) (content : List Nat) : Fs :=
  fsSet fs p (writeLoop [] content)

lemma writeLoop_eq :
    ∀ (n : Nat) (remaining : List Nat), remaining.length ≤ n →
      (∀ b ∈ remaining, b < 256) → ∀ dev, writeLoop dev remaining = dev ++ remaining := by
  intro n
  induction n with
  | zero =>
    intro r hr _ dev
    have : r = [] := List.eq_nil_of_length_eq_zero (by omega)
    subst this
    rw [writeLoop]
    simp
  | succ n ih =>
    intro r hr hb dev
    by_cases h : r = []
    · subst h
      rw [writeLoop]
      simp
    · rw [writeLoop, dif_neg h,
        decodeB64_encodeB64 512 (r.take 512) (by simp) (fun b hb2 => hb b (List.take_subset _ _ hb2)),
        ih (r.drop 512) (by simp only [List.length_drop]; omega)
          (fun b hb2 => hb b (List.drop_subset _ _ hb2)),
        List.append_assoc, List.take_append_drop]

/-- Errors raised by `read_file`. -/
inductive FTError where
  | fileNotFound
  | ioError
deriving DecidableEq

/-- The chunk loop of `read_file` (lines 104–128), as a function of the
REPL results consumed: while `offset < file_size`, the next result either
carries an error — `IOError` — or its output is base64-decoded, appended,
and advances the offset by the decoded length.  Returns the outcome
(`none` when the supplied result trace is exhausted first) and the number
of chunk reads issued. -/
def readLoopT (size : Nat) : Nat → List REPLResult → Option (Except FTError (List Nat)) × Nat
  | offset, [] =>
    if offset < size then (none, 0) else (some (Except.ok []), 0)
  | offset, r :: rs =>
    if offset < size then
      if r.error.isEmpty then
        let chunk := decodeB64 r.output
        let q := readLoopT size (offset + chunk.length) rs
        (q.1.map (fun res => res.map (fun rest => chunk ++ rest)), q.2 + 1)
      else (some (Except.error FTError.ioError), 1)
    else (some (Except.ok []), 0)

/-- `FileTransfer.read_file` (lines 85–128) against a trace of REPL
results: the first result is the `os.stat` size probe — when its output
does not parse as an integer the call raises `FileNotFoundError` without
issuing any chunk read — and the remaining results feed the chunk loop. -/
def FileTransfer.readFromTrace (probe : REPLResult) (resps : List REPLResult) :
    Option (Except FTError (List Nat)) × Nat :=
  match parsePyNat probe.output with
  | none => (some (Except.error FTError.fileNotFound), 0)
  | some size => readLoopT size 0 resps

/-- The size-probe result a functioning device produces: `print(stat[6])`
(size then CRLF) when the file exists, an `ERROR:` line when `os.stat`
raises. -/
def statProbe (fs : Fs) (p : String) : REPLResult :=
  match fsGet fs p with
  | some c => ⟨natDecBytes c.length ++ [13, 10], [], true⟩
  | none => ⟨strBytes "ERROR: [Errno 2] ENOENT" ++ [13, 10], [], true⟩

/-- The chunk-read results a functioning device produces for a file with
the given content: each read at `offset` returns the base64 encoding of
`f.seek(offset); f.read(min(512, size - offset))` (plus the CRLF that
`print` appends). -/
def honestChunks (content : List Nat) (offset : Nat) : List REPLResult :=
  if _h : offset < content.length then
    ⟨encodeB64 ((content.drop offset).take (min 512 (content.length - offset))) ++ [13, 10],
      [], true⟩
      :: honestChunks content (offset + min 512 (content.length - offset))
  else []
termination_by content.length - offset
decreasing_by omega

/-- `FileTransfer.read_file` against a functioning device. -/
def FileTransfer.read_file (fs : Fs) (p : String) :
    Option (Except FTError (List Nat)) × Nat :=
  FileTransfer.readFromTrace (statProbe fs p) (honestChunks ((fsGet fs p).getD []) 0)

lemma readLoopT_honest (content : List Nat) (hb : ∀ b ∈ content, b < 256) :
    ∀ (fuel offset : Nat), content.length - offset ≤ fuel →
      (readLoopT content.length offset (honestChunks content offset)).1
        = some (Except.ok (content.drop offset)) := by
  intro fuel
  induction fuel with
  | zero =>
    intro offset hle
    have hge : ¬ offset < content.length := by omega
    rw [honestChunks, dif_neg hge]
    simp only [readLoopT, if_neg hge]
    rw [List.drop_eq_nil_of_le (show content.length ≤ offset by omega)]
  | succ fuel ih =>
    intro offset hle
    by_cases hlt : offset < content.length
    · have hm1 : 1 ≤ min 512 (content.length - offset) := by omega
      have hm2 : min 512 (content.length - offset) ≤ content.length - offset :=
        min_le_right _ _
      rw [honestChunks, dif_pos hlt]
      have hchunk :
          decodeB64 (encodeB64 ((content.drop offset).take (min 512 (content.length - offset)))
              ++ [13, 10])
            = (content.drop offset).take (min 512 (content.length - offset)) := by
        rw [decodeB64_append_crlf]
        exact decodeB64_encodeB64 ((content.drop offset).take (min 512 (content.length - offset))).length _
          le_rfl
          (fun b hb2 => hb b (List.drop_subset _ _ (List.take_subset _ _ hb2)))
      have hlen : ((content.drop offset).take (min 512 (content.length - offset))).length
          = min 512 (content.length - offset) := by
        simp only [List.length_take, List.length_drop]
        omega
      simp only [readLoopT, if_pos hlt]
      rw [if_pos (by rfl)]
      simp only [hchunk, hlen]
      rw [ih (offset + min 512 (content.length - offset)) (by omega)]
      have hsplit : (content.drop offset).take (min 512 (content.length - offset))
          ++ content.drop (offset + min 512 (content.length - offset))
          = content.drop offset := by
        have hdd : content.drop (offset + min 512 (content.length - offset))
            = (content.drop offset).drop (min 512 (content.length - offset)) := by
          rw [List.drop_drop]
        rw [hdd, List.take_append_drop]
      simp [Except.map, hsplit]
    · rw [honestChunks, dif_neg hlt]
      simp only [readLoopT, if_neg hlt]
      rw [List.drop_eq_nil_of_le (show content.length ≤ offset by omega)]

/-- C2: writing a byte string and reading it back over the chunked base64
protocol returns exactly the original content. -/
theorem file_roundtrip (fs : Fs) (p : String) (B : List Nat)
    (hlen : B.length ≤ 65536) (hb : ∀ b ∈ B, b < 256) :
    (FileTransfer.read_file (FileTransfer.write_file fs p B) p).1
      = some (Except.ok B) := by
  have hw : fsGet (FileTransfer.write_file fs p B) p = some B := by
    unfold FileTransfer.write_file
    rw [fsGet_fsSet, writeLoop_eq B.length B le_rfl hb []]
    rfl
  unfold FileTransfer.read_file FileTransfer.readFromTrace
  rw [show (statProbe (FileTransfer.write_file fs p B) p).output
      = natDecBytes B.length ++ [13, 10] by simp [statProbe, hw]]
  rw [parsePyNat_natDecBytes, hw]
  simpa using readLoopT_honest B hb B.length 0 (by omega)

/-- Witness for C2: a three-byte binary file round-trips. -/
theorem file_roundtrip_witness :
    (FileTransfer.read_file (FileTransfer.write_file [] "/main.py" [0, 255, 10]) "/main.py").1
      = some (Except.ok [0, 255, 10]) :=
  file_roundtrip [] "/main.py" [0, 255, 10] (by decide) (by decide)

/-- C10: if the size probe's output does not parse as an integer,
`read_file` raises `FileNotFoundError` and issues no chunk reads; a chunk
read carrying an error after a successful size probe raises `IOError`
instead. -/
theorem read_file_error_paths (probe : REPLResult) (resps : List REPLResult)
    (r : REPLResult) (rs : List REPLResult) (size : Nat) :
    (parsePyNat probe.output = none →
      FileTransfer.readFromTrace probe resps
        = (some (Except.error FTError.fileNotFound), 0))
    ∧ (parsePyNat probe.output = some size → 0 < size → r.error ≠ [] →
        FileTransfer.readFromTrace probe (r :: rs)
          = (some (Except.error FTError.ioError), 1)) := by
  constructor
  · intro h
    simp [FileTransfer.readFromTrace, h]
  · intro h hs he
    unfold FileTransfer.readFromTrace
    rw [h]
    simp only [readLoopT, if_pos hs]
    rw [if_neg (by simp [List.isEmpty_iff, he])]

/-- Witness for C10: a failed stat probe gives FileNotFoundError with zero
chunk reads; an errored chunk read after a successful probe gives IOError. -/
theorem read_file_error_paths_witness :
    FileTransfer.readFromTrace ⟨strBytes "ERROR: [Errno 2] ENOENT", [], true⟩ []
      = (some (Except.error FTError.fileNotFound), 0)
    ∧ FileTransfer.readFromTrace ⟨strBytes "5", [], true⟩ [⟨[], strBytes "Boom", false⟩]
      = (some (Except.error FTError.ioError), 1) :=
  ⟨(read_file_error_paths ⟨strBytes "ERROR: [Errno 2] ENOENT", [], true⟩ []
      ⟨[], [], true⟩ [] 0).1 (by decide),
   (read_file_error_paths ⟨strBytes "5", [], true⟩ [] ⟨[], strBytes "Boom", false⟩ [] 5).2
      (by decide) (by decide) (by decide)⟩

/-! ## JSON values — the payload of the LSP framing (src/lsp/protocol.py)

`JSONRPCProtocol.encode` serializes with `json.dumps` and the decoders
parse with `json.loads`.  We embed the JSON data model with integer
numbers (LSP messages carry ints; IEEE floats are out of scope of the
shallow embedding), strings as lists of Unicode scalar values, and objects
as key/value lists in insertion order (Python dicts preserve insertion
order and `json.dumps` emits it; `json.loads` rebuilds it). -/

inductive Json where
  | null
  | bool (b : Bool)
  | num (n : Int)
  | str (s : List Nat)
  | arr (xs : List Json)
  | obj (fields : List (List Nat × Json))

/-- A Unicode scalar value: a codepoint below 0x110000 outside the
surrogate range. -/
def scalarOk (c : Nat) : Bool :=
  decide (c < 1114112) && !(decide (55296 ≤ c) && decide (c ≤ 57343))

mutual

/-- Well-formed JSON value: strings hold Unicode scalar values and object
keys are distinct (a Python dict cannot hold duplicate keys). -/
def Json.wf : Json → Bool
  | .null => true
  | .bool _ => true
  | .num _ => true
  | .str s => s.all scalarOk
  | .arr xs => wfList xs
  | .obj fs => decide ((fs.map (fun kv => kv.1)).Nodup) && wfFields fs

def wfList : List Json → Bool
  | [] => true
  | x :: xs => Json.wf x && wfList xs

def wfFields : List (List Nat × Json) → Bool
  | [] => true
  | kv :: fs => kv.1.all scalarOk && Json.wf kv.2 && wfFields fs

end

/-- Hex digit byte (lowercase, as CPython's `\uXXXX` escapes emit). -/
def hexDigit (d : Nat) : Nat := if d < 10 then 48 + d else 87 + d

/-- Four hex digit bytes of a 16-bit value. -/
def hex4 (n : Nat) : List Nat :=
  [hexDigit (n / 4096 % 16), hexDigit (n / 256 % 16), hexDigit (n / 16 % 16),
   hexDigit (n % 16)]

/-- `json.dumps` escaping of one character (default `ensure_ascii=True`):
`"` and `\` and the five short control escapes, printable ASCII verbatim,
`\uXXXX` otherwise, with surrogate pairs above U+FFFF. -/
def escapeChar (c : Nat) : List Nat :=
  if c = 34 then [92, 34]
  else if c = 92 then [92, 92]
  else if c = 8 then [92, 98]
  else if c = 9 then [92, 116]
  else if c = 10 then [92, 110]
  else if c = 12 then [92, 102]
  else if c = 13 then [92, 114]
  else if 32 ≤ c ∧ c ≤ 126 then [c]
  else if c < 65536 then 92 :: 117 :: hex4 c
  else
    let u := c - 65536
    (92 :: 117 :: hex4 (55296 + u / 1024)) ++ (92 :: 117 :: hex4 (56320 + u % 1024))

def listJoin : List (List Nat) → List Nat
  | [] => []
  | l :: ls => l ++ listJoin ls

/-- `json.dumps` of a string: quoted, characters escaped. -/
def strDumps (s : List Nat) : List Nat := 34 :: listJoin (s.map escapeChar) ++ [34]

/-- `json.dumps` of an integer (decimal, `-` sign). -/
def intDecBytes (i : Int) : List Nat :=
  if i < 0 then 45 :: natDecBytes i.natAbs else natDecBytes i.toNat

mutual

/-- `json.dumps` with the default separators `", "` and `": "` and
`ensure_ascii=True` — the serialization used by `JSONRPCProtocol.encode`. -/
def Json.dumps : Json → List Nat
  | .null => [110, 117, 108, 108]
  | .bool true => [116, 114, 117, 101]
  | .bool false => [102, 97, 108, 115, 101]
  | .num i => intDecBytes i
  | .str s => strDumps s
  | .arr [] => [91, 93]
  | .arr (x :: xs) => 91 :: (Json.dumps x ++ sepJoin xs) ++ [93]
  | .obj [] => [123, 125]
  | .obj (kv :: fs) => 123 :: (memberBytes kv ++ sepJoinObj fs) ++ [125]

/-- Remaining array elements, each preceded by `", "`. -/
def sepJoin : List Json → List Nat
  | [] => []
  | x :: xs => 44 :: 32 :: Json.dumps x ++ sepJoin xs

/-- One object member: quoted key, `": "`, value. -/
def memberBytes : List Nat × Json → List Nat
  | (k, v) => strDumps k ++ 58 :: 32 :: Json.dumps v

/-- Remaining object members, each preceded by `", "`. -/
def sepJoinObj : List (List Nat × Json) → List Nat
  | [] => []
  | kv :: fs => 44 :: 32 :: memberBytes kv ++ sepJoinObj fs

end

/-- JSON insignificant whitespace (` \t\n\r`, as the `json` scanner skips). -/
def isWsByte (b : Nat) : Bool := b = 32 || b = 9 || b = 10 || b = 13

def skipWs (l : List Nat) : List Nat := l.dropWhile isWsByte

/-- Value of an ASCII hex digit byte. -/
def hexVal (c : Nat) : Option Nat :=
  if 48 ≤ c ∧ c ≤ 57 then some (c - 48)
  else if 97 ≤ c ∧ c ≤ 102 then some (c - 87)
  else if 65 ≤ c ∧ c ≤ 70 then some (c - 55)
  else none

/-- The two-character escapes accepted by the `json` string scanner. -/
def escUnmap (e : Nat) : Option Nat :=
  if e = 34 then some 34
  else if e = 92 then some 92
  else if e = 47 then some 47
  else if e = 98 then some 8
  else if e = 102 then some 12
  else if e = 110 then some 10
  else if e = 114 then some 13
  else if e = 116 then some 9
  else none

/-- Four hex digits of a `\uXXXX` escape. -/
def parseU (l : List Nat) : Option (Nat × List Nat) :=
  match l with
  | h1 :: h2 :: h3 :: h4 :: rest =>
    match hexVal h1, hexVal h2, hexVal h3, hexVal h4 with
    | some x, some y, some z, some w => some (x * 4096 + y * 256 + z * 16 + w, rest)
    | _, _, _, _ => none
  | _ => none

/-- The `json` string scanner, after the opening quote: literal characters
up to the closing quote, two-character escapes, `\uXXXX` escapes with
high/low surrogate pairs recombined, raw control characters rejected
(strict mode).  Fueled: one unit per scanned character suffices. -/
def parseStr : Nat → List Nat → Option (List Nat × List Nat)
  | 0, _ => none
  | _, [] => none
  | fuel + 1, c :: rest =>
    if c = 34 then some ([], rest)
    else if c = 92 then
      match rest with
      | [] => none
      | e :: rest2 =>
        if e = 117 then
          match parseU rest2 with
          | none => none
          | some (n, rest3) =>
            if 55296 ≤ n ∧ n ≤ 56319 then
              match rest3 with
              | 92 :: 117 :: rest4 =>
                match parseU rest4 with
                | some (n2, rest5) =>
                  if 56320 ≤ n2 ∧ n2 ≤ 57343 then
                    (parseStr fuel rest5).map
                      (fun p => ((65536 + (n - 55296) * 1024 + (n2 - 56320)) :: p.1, p.2))
                  else (parseStr fuel rest3).map (fun p => (n :: p.1, p.2))
                | none => (parseStr fuel rest3).map (fun p => (n :: p.1, p.2))
              | _ => (parseStr fuel rest3).map (fun p => (n :: p.1, p.2))
            else (parseStr fuel rest3).map (fun p => (n :: p.1, p.2))
        else
          match escUnmap e with
          | some ch => (parseStr fuel rest2).map (fun p => (ch :: p.1, p.2))
          | none => none
    else if c < 32 then none
    else (parseStr fuel rest).map (fun p => (c :: p.1, p.2))

/-- The `json` number scanner restricted to integers: optional `-` sign
followed by a maximal run of digits. -/
def parseNum (s : List Nat) : Option (Int × List Nat) :=
  match s with
  | [] => none
  | c :: rest =>
    if c = 45 then
      let ds := rest.takeWhile isDigitByte
      if ds.isEmpty then none
      else some (-(digitsVal ds : Int), rest.dropWhile isDigitByte)
    else
      let ds := (c :: rest).takeWhile isDigitByte
      if ds.isEmpty then none
      else some ((digitsVal ds : Int), (c :: rest).dropWhile isDigitByte)

mutual

/-- The `json` value scanner (fueled to make the recursion structural; the
fuel is in terms of remaining input and only ever decreases). -/
def parseValue : Nat → List Nat → Option (Json × List Nat)
  | 0, _ => none
  | fuel + 1, s =>
    match skipWs s with
    | [] => none
    | c :: rest =>
      if c = 110 then
        if rest.take 3 = [117, 108, 108] then some (.null, rest.drop 3) else none
      else if c = 116 then
        if rest.take 3 = [114, 117, 101] then some (.bool true, rest.drop 3) else none
      else if c = 102 then
        if rest.take 4 = [97, 108, 115, 101] then some (.bool false, rest.drop 4)
        else none
      else if c = 34 then
        (parseStr (rest.length + 1) rest).map (fun p => (.str p.1, p.2))
      else if c = 91 then
        let s2 := skipWs rest
        if s2.take 1 = [93] then some (.arr [], s2.drop 1)
        else
          match parseValue fuel s2 with
          | none => none
          | some (v, r) =>
            match parseArrTail fuel r with
            | none => none
            | some (vs, r2) => some (.arr (v :: vs), r2)
      else if c = 123 then
        let s2 := skipWs rest
        if s2.take 1 = [125] then some (.obj [], s2.drop 1)
        else
          match parseMember fuel s2 with
          | none => none
          | some (kv, r) =>
            match parseObjTail fuel r with
            | none => none
            | some (kvs, r2) => some (.obj (kv :: kvs), r2)
      else
        (parseNum (c :: rest)).map (fun p => (.num p.1, p.2))

/-- After one array element: `,` and another element, or `]`. -/
def parseArrTail : Nat → List Nat → Option (List Json × List Nat)
  | 0, _ => none
  | fuel + 1, s =>
    let s2 := skipWs s
    if s2.take 1 = [93] then some ([], s2.drop 1)
    else if s2.take 1 = [44] then
      match parseValue fuel (s2.drop 1) with
      | none => none
      | some (v, r) =>
        match parseArrTail fuel r with
        | none => none
        | some (vs, r2) => some (v :: vs, r2)
    else none

/-- One object member: quoted key, `:`, value. -/
def parseMember : Nat → List Nat → Option ((List Nat × Json) × List Nat)
  | 0, _ => none
  | fuel + 1, s =>
    let s2 := skipWs s
    if s2.take 1 = [34] then
      match parseStr ((s2.drop 1).length + 1) (s2.drop 1) with
      | none => none
      | some (k, r) =>
        let r2 := skipWs r
        if r2.take 1 = [58] then
          match parseValue fuel (r2.drop 1) with
          | none => none
          | some (v, r3) => some ((k, v), r3)
        else none
    else none

/-- After one object member: `,` and another member, or `}`. -/
def parseObjTail : Nat → List Nat → Option (List (List Nat × Json) × List Nat)
  | 0, _ => none
  | fuel + 1, s =>
    let s2 := skipWs s
    if s2.take 1 = [125] then some ([], s2.drop 1)
    else if s2.take 1 = [44] then
      match parseMember fuel (s2.drop 1) with
      | none => none
      | some (kv, r) =>
        match parseObjTail fuel r with
        | none => none
        | some (kvs, r2) => some (kv :: kvs, r2)
    else none

end

lemma hexVal_hexDigit : ∀ d < 16, hexVal (hexDigit d) = some d := by
  decide

lemma scalarOk_iff (c : Nat) :
    scalarOk c = true ↔ c < 1114112 ∧ ¬(55296 ≤ c ∧ c ≤ 57343) := by
  simp only [scalarOk, Bool.and_eq_true, Bool.not_eq_true', Bool.and_eq_false_iff,
    decide_eq_true_eq, decide_eq_false_iff_not]
  omega

lemma parseU_hex4 (n : Nat) (h : n < 65536) (T : List Nat) :
    parseU (hex4 n ++ T) = some (n, T) := by
  have e1 := hexVal_hexDigit (n / 4096 % 16) (by omega)
  have e2 := hexVal_hexDigit (n / 256 % 16) (by omega)
  have e3 := hexVal_hexDigit (n / 16 % 16) (by omega)
  have e4 := hexVal_hexDigit (n % 16) (by omega)
  simp only [hex4, List.cons_append, List.nil_append, parseU, e1, e2, e3, e4]
  rw [show n / 4096 % 16 * 4096 + n / 256 % 16 * 256 + n / 16 % 16 * 16 + n % 16 = n from by
    omega]

lemma parseStr_u_single (f c : Nat) (T : List Nat) (hc : c < 65536)
    (hs : ¬(55296 ≤ c ∧ c ≤ 56319)) :
    parseStr (f + 1) (92 :: 117 :: (hex4 c ++ T))
      = (parseStr f T).map (fun p => (c :: p.1, p.2)) := by
  simp only [parseStr]
  rw [if_neg (show ¬((92:Nat) = 34) from by decide), if_pos trivial, if_pos trivial,
    parseU_hex4 c hc T]
  simp only []
  rw [if_neg hs]

lemma parseStr_u_core (f : Nat) (u1 u2 T : List Nat) (n1 n2 : Nat)
    (h1 : parseU (u1 ++ (92 :: 117 :: (u2 ++ T))) = some (n1, 92 :: 117 :: (u2 ++ T)))
    (h2 : parseU (u2 ++ T) = some (n2, T))
    (hn1 : 55296 ≤ n1 ∧ n1 ≤ 56319) (hn2 : 56320 ≤ n2 ∧ n2 ≤ 57343) :
    parseStr (f + 1) (92 :: 117 :: (u1 ++ (92 :: 117 :: (u2 ++ T))))
      = (parseStr f T).map
          (fun p => ((65536 + (n1 - 55296) * 1024 + (n2 - 56320)) :: p.1, p.2)) := by
  simp only [parseStr]
  rw [if_neg (show ¬((92:Nat) = 34) from by decide), if_pos trivial, if_pos trivial, h1]
  simp only []
  rw [if_pos hn1]
  simp only [h2]
  rw [if_pos hn2]

lemma parseStr_u_pair (f c : Nat) (T : List Nat) (h1 : 65536 ≤ c) (h2 : c < 1114112) :
    parseStr (f + 1)
      (92 :: 117 :: (hex4 (55296 + (c - 65536) / 1024)
        ++ (92 :: 117 :: (hex4 (56320 + (c - 65536) % 1024) ++ T))))
      = (parseStr f T).map (fun p => (c :: p.1, p.2)) := by
  rw [parseStr_u_core f (hex4 (55296 + (c - 65536) / 1024))
      (hex4 (56320 + (c - 65536) % 1024)) T
      (55296 + (c - 65536) / 1024) (56320 + (c - 65536) % 1024)
      (parseU_hex4 (55296 + (c - 65536) / 1024) (by omega)
        (92 :: 117 :: (hex4 (56320 + (c - 65536) % 1024) ++ T)))
      (parseU_hex4 (56320 + (c - 65536) % 1024) (by omega) T)
      (by omega) (by omega)]
  rw [show 65536 + (55296 + (c - 65536) / 1024 - 55296) * 1024
      + (56320 + (c - 65536) % 1024 - 56320) = c from by omega]

lemma parseStr_esc2 (f e ch : Nat) (T : List Nat) (he : escUnmap e = some ch)
    (h117 : e ≠ 117) :
    parseStr (f + 1) (92 :: e :: T) = (parseStr f T).map (fun p => (ch :: p.1, p.2)) := by
  simp only [parseStr]
  rw [if_neg (show ¬((92:Nat) = 34) from by decide), if_pos trivial]
  try simp only []
  rw [if_neg h117, he]

lemma parseStr_lit (f c : Nat) (T : List Nat) (h34 : c ≠ 34) (h92 : c ≠ 92)
    (hge : 32 ≤ c) :
    parseStr (f + 1) (c :: T) = (parseStr f T).map (fun p => (c :: p.1, p.2)) := by
  simp only [parseStr]
  rw [if_neg h34, if_neg h92, if_neg (by omega)]

lemma parseStr_escape (s : List Nat) : ∀ (fuel : Nat) (rest : List Nat),
    (∀ c ∈ s, scalarOk c = true) → s.length + 1 ≤ fuel →
    parseStr fuel (listJoin (s.map escapeChar) ++ 34 :: rest) = some (s, rest) := by
  induction s with
  | nil =>
    intro fuel rest _ hf
    obtain ⟨f, rfl⟩ : ∃ f, fuel = f + 1 := ⟨fuel - 1, by omega⟩
    simp [listJoin, parseStr]
  | cons c cs ih =>
    intro fuel rest hsc hf
    obtain ⟨f, rfl⟩ : ∃ f, fuel = f + 1 := ⟨fuel - 1, by omega⟩
    have hc := (scalarOk_iff c).mp (hsc c (by simp))
    have ihT : parseStr f (listJoin (cs.map escapeChar) ++ 34 :: rest) = some (cs, rest) :=
      ih f rest (fun x hx => hsc x (by simp [hx])) (by simp at hf; omega)
    simp only [List.map_cons, listJoin, List.append_assoc]
    by_cases h34 : c = 34
    · subst h34
      rw [show escapeChar 34 = [92, 34] from rfl]
      simp only [List.cons_append, List.nil_append]
      rw [parseStr_esc2 f 34 34 _ (by decide) (by decide), ihT]
      rfl
    by_cases h92 : c = 92
    · subst h92
      rw [show escapeChar 92 = [92, 92] from rfl]
      simp only [List.cons_append, List.nil_append]
      rw [parseStr_esc2 f 92 92 _ (by decide) (by decide), ihT]
      rfl
    by_cases h8 : c = 8
    · subst h8
      rw [show escapeChar 8 = [92, 98] from rfl]
      simp only [List.cons_append, List.nil_append]
      rw [parseStr_esc2 f 98 8 _ (by decide) (by decide), ihT]
      rfl
    by_cases h9 : c = 9
    · subst h9
      rw [show escapeChar 9 = [92, 116] from rfl]
      simp only [List.cons_append, List.nil_append]
      rw [parseStr_esc2 f 116 9 _ (by decide) (by decide), ihT]
      rfl
    by_cases h10 : c = 10
    · subst h10
      rw [show escapeChar 10 = [92, 110] from rfl]
      simp only [List.cons_append, List.nil_append]
      rw [parseStr_esc2 f 110 10 _ (by decide) (by decide), ihT]
      rfl
    by_cases h12 : c = 12
    · subst h12
      rw [show escapeChar 12 = [92, 102] from rfl]
      simp only [List.cons_append, List.nil_append]
      rw [parseStr_esc2 f 102 12 _ (by decide) (by decide), ihT]
      rfl
    by_cases h13 : c = 13
    · subst h13
      rw [show escapeChar 13 = [92, 114] from rfl]
      simp only [List.cons_append, List.nil_append]
      rw [parseStr_esc2 f 114 13 _ (by decide) (by decide), ihT]
      rfl
    by_cases hpr : 32 ≤ c ∧ c ≤ 126
    · have he : escapeChar c = [c] := by
        unfold escapeChar
        rw [if_neg h34, if_neg h92, if_neg h8, if_neg h9, if_neg h10, if_neg h12,
          if_neg h13, if_pos hpr]
      rw [he]
      simp only [List.cons_append, List.nil_append]
      rw [parseStr_lit f c _ h34 h92 hpr.1, ihT]
      rfl
    by_cases hb : c < 65536
    · have he : escapeChar c = 92 :: 117 :: hex4 c := by
        unfold escapeChar
        rw [if_neg h34, if_neg h92, if_neg h8, if_neg h9, if_neg h10, if_neg h12,
          if_neg h13, if_neg hpr, if_pos hb]
      rw [he]
      simp only [List.cons_append]
      rw [parseStr_u_single f c _ hb (by omega), ihT]
      rfl
    · have he : escapeChar c
          = (92 :: 117 :: hex4 (55296 + (c - 65536) / 1024))
            ++ (92 :: 117 :: hex4 (56320 + (c - 65536) % 1024)) := by
        unfold escapeChar
        rw [if_neg h34, if_neg h92, if_neg h8, if_neg h9, if_neg h10, if_neg h12,
          if_neg h13, if_neg hpr, if_neg hb]
      rw [he]
      simp only [List.cons_append, List.append_assoc]
      rw [parseStr_u_pair f c _ (by omega) (by omega), ihT]
      rfl

/-- What may legally follow a serialized value in the middle of a larger
document: nothing (top level), a comma, or a closing bracket/brace. -/
def followOk : List Nat → Bool
  | [] => true
  | c :: _ => c = 44 || c = 93 || c = 125

lemma skipWs_cons_not (c : Nat) (t : List Nat) (h : isWsByte c = false) :
    skipWs (c :: t) = c :: t := by
  simp [skipWs, List.dropWhile_cons, h]

lemma parseValue_ws (fuel c : Nat) (t : List Nat) (h : isWsByte c = true) :
    parseValue fuel (c :: t) = parseValue fuel t := by
  cases fuel with
  | zero => rfl
  | succ f =>
    simp only [parseValue]
    rw [show skipWs (c :: t) = skipWs t from by simp [skipWs, List.dropWhile_cons, h]]

lemma digitsVal_natDecBytes (n : Nat) : digitsVal (natDecBytes n) = n := by
  unfold natDecBytes
  rw [digitsVal_reverse_map, lsbVal_natDecDigitsRev]

lemma dumps_start (v : Json) :
    ∃ c t, Json.dumps v = c :: t ∧ isWsByte c = false ∧ c ≠ 93 ∧ c ≠ 125 ∧ c ≠ 44 := by
  cases v with
  | null => exact ⟨110, _, rfl, by decide, by decide, by decide, by decide⟩
  | bool b =>
    cases b with
    | true => exact ⟨116, _, rfl, by decide, by decide, by decide, by decide⟩
    | false => exact ⟨102, _, rfl, by decide, by decide, by decide, by decide⟩
  | num i =>
    show ∃ c t, intDecBytes i = c :: t ∧ _
    unfold intDecBytes
    by_cases hi : i < 0
    · rw [if_pos hi]
      exact ⟨45, _, rfl, by decide, by decide, by decide, by decide⟩
    · rw [if_neg hi]
      obtain ⟨c, t, hct⟩ := List.exists_cons_of_ne_nil (natDecBytes_ne_nil i.toNat)
      have hd : isDigitByte c = true := natDecBytes_digits i.toNat c (by rw [hct]; simp)
      simp only [isDigitByte, Bool.and_eq_true, decide_eq_true_eq] at hd
      refine ⟨c, t, hct, ?_, by omega, by omega, by omega⟩
      simp only [isWsByte, Bool.or_eq_false_iff, decide_eq_false_iff_not]
      omega
  | str s => exact ⟨34, _, rfl, by decide, by decide, by decide, by decide⟩
  | arr xs =>
    cases xs with
    | nil => exact ⟨91, _, rfl, by decide, by decide, by decide, by decide⟩
    | cons x xs => exact ⟨91, _, rfl, by decide, by decide, by decide, by decide⟩
  | obj fs =>
    cases fs with
    | nil => exact ⟨123, _, rfl, by decide, by decide, by decide, by decide⟩
    | cons kv fs => exact ⟨123, _, rfl, by decide, by decide, by decide, by decide⟩

lemma dumps_length_pos (v : Json) : 1 ≤ (Json.dumps v).length := by
  obtain ⟨c, t, hct, -⟩ := dumps_start v
  rw [hct]
  simp

lemma followOk_not_digit (T : List Nat) (h : followOk T = true) :
    T = [] ∨ ∃ c t, T = c :: t ∧ isDigitByte c = false := by
  cases T with
  | nil => exact Or.inl rfl
  | cons c t =>
    refine Or.inr ⟨c, t, rfl, ?_⟩
    simp only [followOk, Bool.or_eq_true, decide_eq_true_eq] at h
    simp only [isDigitByte, Bool.and_eq_false_iff, decide_eq_false_iff_not]
    omega

lemma takeWhile_digits_append (ds : List Nat) (T : List Nat)
    (hds : ∀ b ∈ ds, isDigitByte b = true)
    (hT : T = [] ∨ ∃ c t, T = c :: t ∧ isDigitByte c = false) :
    (ds ++ T).takeWhile isDigitByte = ds ∧ (ds ++ T).dropWhile isDigitByte = T := by
  induction ds with
  | nil =>
    rcases hT with rfl | ⟨c, t, rfl, hc⟩
    · exact ⟨rfl, rfl⟩
    · simp [List.takeWhile_cons, List.dropWhile_cons, hc]
  | cons d ds ih =>
    have hd := hds d (by simp)
    have ih2 := ih (fun b hb => hds b (by simp [hb]))
    simp [List.takeWhile_cons, List.dropWhile_cons, hd, ih2.1, ih2.2]

lemma parseNum_intDecBytes (i : Int) (T : List Nat) (hT : followOk T = true) :
    parseNum (intDecBytes i ++ T) = some (i, T) := by
  have hTd := followOk_not_digit T hT
  by_cases hi : i < 0
  · rw [show intDecBytes i = 45 :: natDecBytes i.natAbs from by rw [intDecBytes, if_pos hi]]
    have htw := takeWhile_digits_append (natDecBytes i.natAbs) T
      (natDecBytes_digits i.natAbs) hTd
    simp only [List.cons_append, parseNum]
    rw [if_pos trivial, htw.1, htw.2]
    rw [if_neg (by simp [List.isEmpty_iff, natDecBytes_ne_nil])]
    rw [digitsVal_natDecBytes]
    congr 1
    congr 1
    omega
  · rw [show intDecBytes i = natDecBytes i.toNat from by rw [intDecBytes, if_neg hi]]
    obtain ⟨c, t, hct⟩ := List.exists_cons_of_ne_nil (natDecBytes_ne_nil i.toNat)
    have hd : isDigitByte c = true := natDecBytes_digits i.toNat c (by rw [hct]; simp)
    have hd2 := hd
    simp only [isDigitByte, Bool.and_eq_true, decide_eq_true_eq] at hd2
    have htw := takeWhile_digits_append (natDecBytes i.toNat) T
      (natDecBytes_digits i.toNat) hTd
    rw [hct] at htw ⊢
    simp only [List.cons_append, parseNum]
    rw [if_neg (by omega)]
    rw [show c :: (t ++ T) = (c :: t) ++ T from rfl, htw.1, htw.2]
    rw [if_neg (by simp [List.isEmpty_iff, hct ▸ natDecBytes_ne_nil i.toNat])]
    rw [show (c :: t) = natDecBytes i.toNat from hct.symm, digitsVal_natDecBytes]
    congr 1
    congr 1
    omega

lemma escapeChar_length_pos (c : Nat) : 1 ≤ (escapeChar c).length := by
  unfold escapeChar
  repeat' split
  all_goals simp [hex4]

lemma escLen_ge (s : List Nat) : s.length ≤ (listJoin (s.map escapeChar)).length := by
  induction s with
  | nil => simp [listJoin]
  | cons c cs ih =>
    simp only [List.map_cons, listJoin, List.length_append, List.length_cons]
    have := escapeChar_length_pos c
    omega

lemma intDecBytes_head (i : Int) :
    ∃ c t, intDecBytes i = c :: t ∧ (c = 45 ∨ (48 ≤ c ∧ c ≤ 57)) := by
  unfold intDecBytes
  by_cases hi : i < 0
  · rw [if_pos hi]
    exact ⟨45, _, rfl, Or.inl rfl⟩
  · rw [if_neg hi]
    obtain ⟨c, t, hct⟩ := List.exists_cons_of_ne_nil (natDecBytes_ne_nil i.toNat)
    have hd : isDigitByte c = true := natDecBytes_digits i.toNat c (by rw [hct]; simp)
    simp only [isDigitByte, Bool.and_eq_true, decide_eq_true_eq] at hd
    exact ⟨c, t, hct, Or.inr (by omega)⟩

lemma parseValue_digit_head (fuel c : Nat) (t : List Nat)
    (h : c = 45 ∨ (48 ≤ c ∧ c ≤ 57)) :
    parseValue (fuel + 1) (c :: t)
      = (parseNum (c :: t)).map (fun p => (Json.num p.1, p.2)) := by
  simp only [parseValue]
  rw [skipWs_cons_not c _ (by simp only [isWsByte, Bool.or_eq_false_iff,
    decide_eq_false_iff_not]; omega)]
  simp only []
  rw [if_neg (by omega), if_neg (by omega), if_neg (by omega), if_neg (by omega),
    if_neg (by omega), if_neg (by omega)]

lemma memberBytes_cons (k : List Nat) (v : Json) :
    memberBytes (k, v)
      = 34 :: (listJoin (k.map escapeChar) ++ (34 :: 58 :: 32 :: Json.dumps v)) := by
  show (34 :: (listJoin (k.map escapeChar) ++ [34])) ++ (58 :: 32 :: Json.dumps v) = _
  simp [List.append_assoc]

lemma memberBytes_length_pos (k : List Nat) (v : Json) :
    1 ≤ (memberBytes (k, v)).length := by
  rw [memberBytes_cons]
  simp

lemma parseMember_ws (fuel c : Nat) (t : List Nat) (h : isWsByte c = true) :
    parseMember fuel (c :: t) = parseMember fuel t := by
  cases fuel with
  | zero => rfl
  | succ f =>
    simp only [parseMember]
    rw [show skipWs (c :: t) = skipWs t from by simp [skipWs, List.dropWhile_cons, h]]

lemma followOk_sepJoin (xs : List Json) (rest : List Nat) :
    followOk (sepJoin xs ++ 93 :: rest) = true := by
  cases xs with
  | nil => simp [sepJoin, followOk]
  | cons y ys => simp [sepJoin, followOk]

lemma followOk_sepJoinObj (fs : List (List Nat × Json)) (rest : List Nat) :
    followOk (sepJoinObj fs ++ 125 :: rest) = true := by
  cases fs with
  | nil => simp [sepJoinObj, followOk]
  | cons kv fs => simp [sepJoinObj, followOk]

/-- The scanner–serializer roundtrip, proved for all four parsing entry
points simultaneously by induction on the fuel. -/
lemma parse_grand : ∀ fuel : Nat,
    (∀ (v : Json) (rest : List Nat), Json.wf v = true → (Json.dumps v).length ≤ fuel →
       followOk rest = true →
       parseValue fuel (Json.dumps v ++ rest) = some (v, rest))
    ∧ (∀ (xs : List Json) (rest : List Nat), wfList xs = true →
         (sepJoin xs).length + 1 ≤ fuel → followOk rest = true →
         parseArrTail fuel (sepJoin xs ++ 93 :: rest) = some (xs, rest))
    ∧ (∀ (fs : List (List Nat × Json)) (rest : List Nat), wfFields fs = true →
         (sepJoinObj fs).length + 1 ≤ fuel → followOk rest = true →
         parseObjTail fuel (sepJoinObj fs ++ 125 :: rest) = some (fs, rest))
    ∧ (∀ (k : List Nat) (v : Json) (rest : List Nat), k.all scalarOk = true →
         Json.wf v = true → (memberBytes (k, v)).length ≤ fuel → followOk rest = true →
         parseMember fuel (memberBytes (k, v) ++ rest) = some ((k, v), rest)) := by
  intro fuel
  induction fuel with
  | zero =>
    refine ⟨fun v rest _ hlen _ => absurd hlen ?_, fun xs rest _ hlen _ => absurd hlen ?_,
      fun fs rest _ hlen _ => absurd hlen ?_,
      fun k v rest _ _ hlen _ => absurd hlen ?_⟩
    · have := dumps_length_pos v; omega
    · omega
    · omega
    · have := memberBytes_length_pos k v; omega
  | succ fuel ih =>
    obtain ⟨ihV, ihA, ihO, ihM⟩ := ih
    refine ⟨?_, ?_, ?_, ?_⟩
    · intro v rest hwf hlen hfol
      cases v with
      | null =>
        rw [show Json.dumps Json.null ++ rest = 110 :: 117 :: 108 :: 108 :: rest from rfl]
        simp [parseValue, skipWs, isWsByte]
      | bool b =>
        cases b with
        | true =>
          rw [show Json.dumps (Json.bool true) ++ rest
              = 116 :: 114 :: 117 :: 101 :: rest from rfl]
          simp [parseValue, skipWs, isWsByte]
        | false =>
          rw [show Json.dumps (Json.bool false) ++ rest
              = 102 :: 97 :: 108 :: 115 :: 101 :: rest from rfl]
          simp [parseValue, skipWs, isWsByte]
      | num i =>
        obtain ⟨c, t, hct, hc⟩ := intDecBytes_head i
        rw [show Json.dumps (Json.num i) ++ rest = c :: (t ++ rest) from by
          rw [show Json.dumps (Json.num i) = intDecBytes i from rfl, hct]; rfl]
        rw [parseValue_digit_head fuel c _ hc]
        rw [show c :: (t ++ rest) = intDecBytes i ++ rest from by rw [hct]; rfl]
        rw [parseNum_intDecBytes i rest hfol]
        rfl
      | str s =>
        rw [show Json.dumps (Json.str s) ++ rest
            = 34 :: (listJoin (s.map escapeChar) ++ 34 :: rest) from by
          rw [show Json.dumps (Json.str s)
              = 34 :: (listJoin (s.map escapeChar) ++ [34]) from rfl]
          simp [List.append_assoc]]
        simp only [parseValue]
        rw [skipWs_cons_not 34 _ (by decide)]
        simp only []
        rw [if_neg (show ¬((34:Nat) = 110) from by decide),
          if_neg (show ¬((34:Nat) = 116) from by decide),
          if_neg (show ¬((34:Nat) = 102) from by decide), if_pos trivial]
        rw [parseStr_escape s _ rest (by
            simp only [Json.wf, List.all_eq_true] at hwf
            exact hwf)
          (by
            have := escLen_ge s
            simp only [List.length_append, List.length_cons]
            omega)]
        rfl
      | arr xs =>
        cases xs with
        | nil =>
          rw [show Json.dumps (Json.arr []) ++ rest = 91 :: 93 :: rest from rfl]
          simp [parseValue, skipWs, isWsByte]
        | cons x xs =>
          have hwf2 : Json.wf x = true ∧ wfList xs = true := by
            simp only [Json.wf, wfList, Bool.and_eq_true] at hwf
            exact hwf
          have hlen2 : (Json.dumps x).length ≤ fuel ∧ (sepJoin xs).length + 1 ≤ fuel := by
            rw [show Json.dumps (Json.arr (x :: xs))
                = 91 :: (Json.dumps x ++ sepJoin xs) ++ [93] from rfl] at hlen
            simp only [List.length_cons, List.length_append] at hlen
            constructor <;> omega
          obtain ⟨cx, tx, hcx, hwsx, h93x, h125x, h44x⟩ := dumps_start x
          rw [show Json.dumps (Json.arr (x :: xs)) ++ rest
              = 91 :: (Json.dumps x ++ (sepJoin xs ++ 93 :: rest)) from by
            rw [show Json.dumps (Json.arr (x :: xs))
                = 91 :: (Json.dumps x ++ sepJoin xs) ++ [93] from rfl]
            simp [List.append_assoc]]
          simp only [parseValue]
          rw [skipWs_cons_not 91 _ (by decide)]
          simp only []
          rw [if_neg (show ¬((91:Nat) = 110) from by decide),
            if_neg (show ¬((91:Nat) = 116) from by decide),
            if_neg (show ¬((91:Nat) = 102) from by decide),
            if_neg (show ¬((91:Nat) = 34) from by decide), if_pos trivial]
          rw [show Json.dumps x ++ (sepJoin xs ++ 93 :: rest)
              = cx :: (tx ++ (sepJoin xs ++ 93 :: rest)) from by rw [hcx]; rfl]
          rw [skipWs_cons_not cx _ hwsx]
          rw [if_neg (show ¬((cx :: (tx ++ (sepJoin xs ++ 93 :: rest))).take 1 = [93])
            from by simp [h93x])]
          rw [show cx :: (tx ++ (sepJoin xs ++ 93 :: rest))
              = Json.dumps x ++ (sepJoin xs ++ 93 :: rest) from by rw [hcx]; rfl]
          rw [ihV x (sepJoin xs ++ 93 :: rest) hwf2.1 hlen2.1 (followOk_sepJoin xs rest)]
          simp only []
          rw [ihA xs rest hwf2.2 hlen2.2 hfol]
      | obj fs =>
        cases fs with
        | nil =>
          rw [show Json.dumps (Json.obj []) ++ rest = 123 :: 125 :: rest from rfl]
          simp [parseValue, skipWs, isWsByte]
        | cons kv fs =>
          obtain ⟨k, v⟩ := kv
          have hwf2 : (k.all scalarOk = true ∧ Json.wf v = true) ∧ wfFields fs = true := by
            simp only [Json.wf, wfFields, Bool.and_eq_true] at hwf
            exact ⟨hwf.2.1, hwf.2.2⟩
          have hlen2 : (memberBytes (k, v)).length ≤ fuel
              ∧ (sepJoinObj fs).length + 1 ≤ fuel := by
            rw [show Json.dumps (Json.obj ((k, v) :: fs))
                = 123 :: (memberBytes (k, v) ++ sepJoinObj fs) ++ [125] from rfl] at hlen
            simp only [List.length_cons, List.length_append] at hlen
            constructor <;> omega
          rw [show Json.dumps (Json.obj ((k, v) :: fs)) ++ rest
              = 123 :: (memberBytes (k, v) ++ (sepJoinObj fs ++ 125 :: rest)) from by
            rw [show Json.dumps (Json.obj ((k, v) :: fs))
                = 123 :: (memberBytes (k, v) ++ sepJoinObj fs) ++ [125] from rfl]
            simp [List.append_assoc]]
          simp only [parseValue]
          rw [skipWs_cons_not 123 _ (by decide)]
          simp only []
          rw [if_neg (show ¬((123:Nat) = 110) from by decide),
            if_neg (show ¬((123:Nat) = 116) from by decide),
            if_neg (show ¬((123:Nat) = 102) from by decide),
            if_neg (show ¬((123:Nat) = 34) from by decide),
            if_neg (show ¬((123:Nat) = 91) from by decide), if_pos trivial]
          rw [show memberBytes (k, v) ++ (sepJoinObj fs ++ 125 :: rest)
              = 34 :: ((listJoin (k.map escapeChar) ++ (34 :: 58 :: 32 :: Json.dumps v))
                ++ (sepJoinObj fs ++ 125 :: rest)) from by rw [memberBytes_cons]; rfl]
          rw [skipWs_cons_not 34 _ (by decide)]
          rw [if_neg (show ¬((34 :: ((listJoin (k.map escapeChar)
              ++ (34 :: 58 :: 32 :: Json.dumps v)) ++ (sepJoinObj fs ++ 125 :: rest))).take 1
              = [125]) from by simp)]
          rw [show (34 : Nat) :: ((listJoin (k.map escapeChar)
              ++ (34 :: 58 :: 32 :: Json.dumps v)) ++ (sepJoinObj fs ++ 125 :: rest))
              = memberBytes (k, v) ++ (sepJoinObj fs ++ 125 :: rest) from by
            rw [memberBytes_cons]; rfl]
          rw [ihM k v (sepJoinObj fs ++ 125 :: rest) hwf2.1.1 hwf2.1.2 hlen2.1
            (followOk_sepJoinObj fs rest)]
          simp only []
          rw [ihO fs rest hwf2.2 hlen2.2 hfol]
    · intro xs rest hwf hlen hfol
      cases xs with
      | nil =>
        rw [show sepJoin [] ++ 93 :: rest = 93 :: rest from rfl]
        simp [parseArrTail, skipWs, isWsByte]
      | cons y ys =>
        have hwf2 : Json.wf y = true ∧ wfList ys = true := by
          simp only [wfList, Bool.and_eq_true] at hwf
          exact hwf
        have hlen2 : (Json.dumps y).length ≤ fuel ∧ (sepJoin ys).length + 1 ≤ fuel := by
          rw [show sepJoin (y :: ys) = 44 :: 32 :: Json.dumps y ++ sepJoin ys from rfl]
            at hlen
          simp only [List.length_cons, List.length_append] at hlen
          constructor <;> omega
        rw [show sepJoin (y :: ys) ++ 93 :: rest
            = 44 :: 32 :: (Json.dumps y ++ (sepJoin ys ++ 93 :: rest)) from by
          rw [show sepJoin (y :: ys) = 44 :: 32 :: Json.dumps y ++ sepJoin ys from rfl]
          simp [List.append_assoc]]
        simp only [parseArrTail]
        rw [skipWs_cons_not 44 _ (by decide)]
        rw [if_neg (show ¬((44 :: 32 :: (Json.dumps y ++ (sepJoin ys ++ 93 :: rest))).take 1
            = [93]) from by simp)]
        rw [if_pos (show (44 :: 32 :: (Json.dumps y ++ (sepJoin ys ++ 93 :: rest))).take 1
            = [44] from by simp)]
        rw [show (44 :: 32 :: (Json.dumps y ++ (sepJoin ys ++ 93 :: rest))).drop 1
            = 32 :: (Json.dumps y ++ (sepJoin ys ++ 93 :: rest)) from rfl]
        rw [parseValue_ws fuel 32 _ (by decide)]
        rw [ihV y (sepJoin ys ++ 93 :: rest) hwf2.1 hlen2.1 (followOk_sepJoin ys rest)]
        simp only []
        rw [ihA ys rest hwf2.2 hlen2.2 hfol]
    · intro fs rest hwf hlen hfol
      cases fs with
      | nil =>
        rw [show sepJoinObj [] ++ 125 :: rest = 125 :: rest from rfl]
        simp [parseObjTail, skipWs, isWsByte]
      | cons kv fs =>
        obtain ⟨k, v⟩ := kv
        have hwf2 : (k.all scalarOk = true ∧ Json.wf v = true) ∧ wfFields fs = true := by
          simp only [wfFields, Bool.and_eq_true] at hwf
          exact ⟨⟨hwf.1.1, hwf.1.2⟩, hwf.2⟩
        have hlen2 : (memberBytes (k, v)).length ≤ fuel
            ∧ (sepJoinObj fs).length + 1 ≤ fuel := by
          rw [show sepJoinObj ((k, v) :: fs)
              = 44 :: 32 :: memberBytes (k, v) ++ sepJoinObj fs from rfl] at hlen
          simp only [List.length_cons, List.length_append] at hlen
          constructor <;> omega
        rw [show sepJoinObj ((k, v) :: fs) ++ 125 :: rest
            = 44 :: 32 :: (memberBytes (k, v) ++ (sepJoinObj fs ++ 125 :: rest)) from by
          rw [show sepJoinObj ((k, v) :: fs)
              = 44 :: 32 :: memberBytes (k, v) ++ sepJoinObj fs from rfl]
          simp [List.append_assoc]]
        simp only [parseObjTail]
        rw [skipWs_cons_not 44 _ (by decide)]
        rw [if_neg (show ¬((44 :: 32 :: (memberBytes (k, v)
            ++ (sepJoinObj fs ++ 125 :: rest))).take 1 = [125]) from by simp)]
        rw [if_pos (show (44 :: 32 :: (memberBytes (k, v)
            ++ (sepJoinObj fs ++ 125 :: rest))).take 1 = [44] from by simp)]
        rw [show (44 :: 32 :: (memberBytes (k, v)
            ++ (sepJoinObj fs ++ 125 :: rest))).drop 1
            = 32 :: (memberBytes (k, v) ++ (sepJoinObj fs ++ 125 :: rest)) from rfl]
        rw [parseMember_ws fuel 32 _ (by decide)]
        rw [ihM k v (sepJoinObj fs ++ 125 :: rest) hwf2.1.1 hwf2.1.2 hlen2.1
          (followOk_sepJoinObj fs rest)]
        simp only []
        rw [ihO fs rest hwf2.2 hlen2.2 hfol]
    · intro k v rest hk hwfv hlen hfol
      have hlenv : (Json.dumps v).length ≤ fuel := by
        rw [memberBytes_cons] at hlen
        simp only [List.length_cons, List.length_append] at hlen
        omega
      rw [show memberBytes (k, v) ++ rest
          = 34 :: (listJoin (k.map escapeChar)
            ++ (34 :: (58 :: 32 :: (Json.dumps v ++ rest)))) from by
        rw [memberBytes_cons]
        simp [List.append_assoc]]
      simp only [parseMember]
      rw [skipWs_cons_not 34 _ (by decide)]
      rw [if_pos (show (34 :: (listJoin (k.map escapeChar)
          ++ (34 :: (58 :: 32 :: (Json.dumps v ++ rest))))).take 1 = [34] from by simp)]
      rw [show (34 :: (listJoin (k.map escapeChar)
          ++ (34 :: (58 :: 32 :: (Json.dumps v ++ rest))))).drop 1
          = listJoin (k.map escapeChar) ++ 34 :: (58 :: 32 :: (Json.dumps v ++ rest))
          from rfl]
      rw [parseStr_escape k _ (58 :: 32 :: (Json.dumps v ++ rest))
        (by simpa [List.all_eq_true] using hk)
        (by
          have := escLen_ge k
          simp only [List.length_append, List.length_cons]
          omega)]
      simp only []
      rw [skipWs_cons_not 58 _ (by decide)]
      rw [if_pos (show ((58:Nat) :: 32 :: (Json.dumps v ++ rest)).take 1 = [58] from by
        simp)]
      rw [show ((58:Nat) :: 32 :: (Json.dumps v ++ rest)).drop 1
          = 32 :: (Json.dumps v ++ rest) from rfl]
      rw [parseValue_ws fuel 32 _ (by decide)]
      rw [ihV v rest hwfv hlenv hfol]

/-- `json.loads`: parse one value, then require only trailing whitespace. -/
def loads (l : List Nat) : Option Json :=
  match parseValue (l.length + 1) l with
  | none => none
  | some (v, rest) => if (skipWs rest).isEmpty then some v else none

lemma loads_dumps (m : Json) (h : Json.wf m = true) : loads (Json.dumps m) = some m := by
  unfold loads
  have hp := (parse_grand ((Json.dumps m).length + 1)).1 m [] h (by omega) rfl
  rw [List.append_nil] at hp
  rw [hp]
  rfl

/-! ## LSP Content-Length framing — src/lsp/protocol.py -/

/-- `JSONRPCProtocol.encode`, lines 20–32: `Content-Length: <N>\r\n\r\n`
followed by the JSON bytes. -/
def JSONRPCProtocol.encode (m : Json) : List Nat :=
  strBytes "Content-Length: " ++ natDecBytes (Json.dumps m).length
    ++ 13 :: 10 :: 13 :: 10 :: Json.dumps m

/-- `bytes.find(b"\r\n\r\n")`: index of the first occurrence. -/
def findCRLF2 : List Nat → Option Nat
  | [] => none
  | b :: rest =>
    if b = 13 then
      if rest.take 3 = [10, 13, 10] then some 0
      else (findCRLF2 rest).map (fun i => i + 1)
    else (findCRLF2 rest).map (fun i => i + 1)

/-- Python `str.split("\r\n")`. -/
def splitCRLF : List Nat → List (List Nat)
  | [] => [[]]
  | b :: rest =>
    if b = 13 ∧ rest.take 1 = [10] then [] :: splitCRLF (rest.drop 1)
    else
      match splitCRLF rest with
      | [] => [[b]]
      | g :: gs => (b :: g) :: gs
termination_by l => l.length
decreasing_by
  all_goals simp only [List.length_cons, List.length_drop]
  all_goals omega

/-- Python `str.lower()` on ASCII header names. -/
def lowerBytes (l : List Nat) : List Nat :=
  l.map (fun b => if 65 ≤ b ∧ b ≤ 90 then b + 32 else b)

/-- Python `line.split(":", 1)` when a colon occurs. -/
def splitFirstByte (c : Nat) : List Nat → Option (List Nat × List Nat)
  | [] => none
  | b :: bs =>
    if b = c then some ([], bs)
    else
      match splitFirstByte c bs with
      | none => none
      | some (a, d) => some (b :: a, d)

/-- One header line: `key.strip().lower()` mapped to `value.strip()`; lines
without a colon are ignored. -/
def parseHeaderLine (l : List Nat) : Option (List Nat × List Nat) :=
  match splitFirstByte 58 l with
  | none => none
  | some (kv : List Nat × List Nat) => some (lowerBytes (pyStrip kv.1), pyStrip kv.2)

/-- The header dictionary built by `decode_sync` (later lines overwrite
earlier ones, as Python dict assignment does — hence lookup of the last
match). -/
def parseHeaders (hb : List Nat) : List (List Nat × List Nat) :=
  (splitCRLF hb).filterMap parseHeaderLine

def lookupHeader (hs : List (List Nat × List Nat)) (key : List Nat) : Option (List Nat) :=
  (hs.reverse.find? (fun e => e.1 == key)).map (fun e => e.2)

/-- `JSONRPCProtocol.decode_sync`, lines 82–130: find the header end, parse
the headers case-insensitively, read `content-length`, slice the content,
`json.loads` it, and return the remaining bytes. -/
def JSONRPCProtocol.decodeSync (data : List Nat) : Option Json × List Nat :=
  match findCRLF2 data with
  | none => (none, data)
  | some he =>
    let headers := parseHeaders (data.take he)
    match lookupHeader headers (strBytes "content-length") with
    | none => (none, data)
    | some v =>
      match parsePyNat v with
      | none => (none, data)
      | some n =>
        let contentStart := he + 4
        if data.length < contentStart + n then (none, data)
        else
          let content := (data.drop contentStart).take n
          let remaining := data.drop (contentStart + n)
          match loads content with
          | some m => (some m, remaining)
          | none => (none, remaining)

/-- `reader.readline()`: everything up to and including the first `\n`
(or the rest of the buffer; empty at EOF). -/
def readline : List Nat → List Nat × List Nat
  | [] => ([], [])
  | b :: rest =>
    if b = 10 then ([10], rest)
    else
      let p := readline rest
      (b :: p.1, p.2)

/-- `JSONRPCProtocol.decode`, lines 35–80, against an in-memory stream: read
header lines until the blank line — a read returning EOF (empty line)
terminates the reader with `None` — then look up `content-length`,
`readexactly` the content (also `None` when empty), and `json.loads` it. -/
def decodeStreamGo : Nat → List Nat → List (List Nat × List Nat) → Option Json
  | 0, _, _ => none
  | f + 1, input, headers =>
    let p := readline input
    if p.1.isEmpty then none
    else
      let ls := pyStrip p.1
      if ls.isEmpty then
        match lookupHeader headers (strBytes "content-length") with
        | none => none
        | some v =>
          match parsePyNat v with
          | none => none
          | some n =>
            if p.2.length < n then none
            else if n = 0 then none
            else loads (p.2.take n)
      else
        let headers2 :=
          match parseHeaderLine ls with
          | none => headers
          | some kv => headers ++ [kv]
        decodeStreamGo f p.2 headers2

def JSONRPCProtocol.decode (input : List Nat) : Option Json :=
  decodeStreamGo (input.length + 1) input []

/-- Header block: every line followed by CRLF, with the blank line giving
the final `\r\n\r\n`. -/
def joinCRLF : List (List Nat) → List Nat
  | [] => []
  | [l] => l
  | l :: l2 :: ls => l ++ 13 :: 10 :: joinCRLF (l2 :: ls)

def noCRLF (l : List Nat) : Prop := ∀ b ∈ l, b ≠ 13 ∧ b ≠ 10

lemma findCRLF2_skip (l suffix : List Nat) (h : noCRLF l) :
    findCRLF2 (l ++ suffix) = (findCRLF2 suffix).map (fun i => i + l.length) := by
  induction l with
  | nil => cases hF : findCRLF2 suffix <;> simp [hF]
  | cons b bs ih =>
    have hb := h b (by simp)
    have hbs : noCRLF bs := fun x hx => h x (by simp [hx])
    rw [List.cons_append]
    rw [show findCRLF2 (b :: (bs ++ suffix))
        = (findCRLF2 (bs ++ suffix)).map (fun i => i + 1) from by
      simp only [findCRLF2]
      rw [if_neg hb.1]]
    rw [ih hbs]
    cases hF : findCRLF2 suffix <;> simp [hF]
    omega

lemma findCRLF2_at (body : List Nat) :
    findCRLF2 (13 :: 10 :: 13 :: 10 :: body) = some 0 := by
  simp [findCRLF2]

lemma findCRLF2_crlf_cons (c2 : Nat) (t : List Nat) (h13 : c2 ≠ 13) :
    findCRLF2 (13 :: 10 :: c2 :: t)
      = (findCRLF2 (c2 :: t)).map (fun i => i + 2) := by
  rw [show findCRLF2 (13 :: 10 :: c2 :: t)
      = if (10 :: c2 :: t).take 3 = [10, 13, 10] then some 0
        else (findCRLF2 (10 :: c2 :: t)).map (fun i => i + 1) from by
    simp only [findCRLF2]
    rw [if_pos trivial]]
  rw [if_neg (by simp [h13])]
  rw [show findCRLF2 (10 :: c2 :: t)
      = (findCRLF2 (c2 :: t)).map (fun i => i + 1) from by
    simp only [findCRLF2]
    rw [if_neg (by decide)]]
  cases hF : findCRLF2 (c2 :: t) <;> simp [hF]

lemma findCRLF2_hdr (lines : List (List Nat)) (body : List Nat)
    (h : ∀ l ∈ lines, l ≠ [] ∧ noCRLF l) :
    findCRLF2 (joinCRLF lines ++ 13 :: 10 :: 13 :: 10 :: body)
      = some (joinCRLF lines).length := by
  induction lines with
  | nil => simp [joinCRLF, findCRLF2_at]
  | cons l ls ih =>
    cases ls with
    | nil =>
      rw [show joinCRLF [l] = l from rfl]
      rw [findCRLF2_skip l _ (h l (by simp)).2, findCRLF2_at]
      simp
    | cons l2 ls2 =>
      have hl2 := h l2 (by simp)
      obtain ⟨c2, t2, hc2⟩ := List.exists_cons_of_ne_nil hl2.1
      have hc2p : c2 ≠ 13 := (hl2.2 c2 (by rw [hc2]; simp)).1
      have hJ : ∃ Y, joinCRLF (l2 :: ls2) ++ 13 :: 10 :: 13 :: 10 :: body = c2 :: Y := by
        cases ls2 with
        | nil => exact ⟨t2 ++ 13 :: 10 :: 13 :: 10 :: body, by rw [show joinCRLF [l2] = l2 from rfl, hc2]; rfl⟩
        | cons l3 ls3 =>
          refine ⟨t2 ++ 13 :: 10 :: joinCRLF (l3 :: ls3) ++ 13 :: 10 :: 13 :: 10 :: body, ?_⟩
          rw [show joinCRLF (l2 :: l3 :: ls3) = l2 ++ 13 :: 10 :: joinCRLF (l3 :: ls3) from rfl,
            hc2]
          simp
      obtain ⟨Y, hY⟩ := hJ
      rw [show joinCRLF (l :: l2 :: ls2) = l ++ 13 :: 10 :: joinCRLF (l2 :: ls2) from rfl]
      rw [List.append_assoc]
      rw [findCRLF2_skip l _ (h l (by simp)).2]
      rw [show (13 :: 10 :: joinCRLF (l2 :: ls2)) ++ 13 :: 10 :: 13 :: 10 :: body
          = 13 :: 10 :: c2 :: Y from by rw [List.cons_append, List.cons_append, hY]]
      rw [findCRLF2_crlf_cons c2 Y hc2p]
      rw [show c2 :: Y = joinCRLF (l2 :: ls2) ++ 13 :: 10 :: 13 :: 10 :: body from hY.symm]
      rw [ih (fun x hx => h x (by simp [hx]))]
      simp
      omega

lemma splitCRLF_no (l : List Nat) (h : noCRLF l) : splitCRLF l = [l] := by
  induction l with
  | nil => rw [splitCRLF]
  | cons b bs ih =>
    rw [show splitCRLF (b :: bs)
        = if b = 13 ∧ bs.take 1 = [10] then [] :: splitCRLF (bs.drop 1)
          else match splitCRLF bs with
            | [] => [[b]]
            | g :: gs => (b :: g) :: gs from by rw [splitCRLF]]
    rw [if_neg (fun hc => (h b (by simp)).1 hc.1)]
    rw [ih (fun x hx => h x (by simp [hx]))]

lemma splitCRLF_append (l X : List Nat) (h : noCRLF l) :
    splitCRLF (l ++ 13 :: 10 :: X) = l :: splitCRLF X := by
  induction l with
  | nil =>
    rw [List.nil_append]
    rw [show splitCRLF (13 :: 10 :: X)
        = if (13:Nat) = 13 ∧ (10 :: X).take 1 = [10] then [] :: splitCRLF ((10 :: X).drop 1)
          else match splitCRLF (10 :: X) with
            | [] => [[13]]
            | g :: gs => (13 :: g) :: gs from by rw [splitCRLF]]
    rw [if_pos (by simp)]
    rfl
  | cons b bs ih =>
    rw [List.cons_append]
    rw [show splitCRLF (b :: (bs ++ 13 :: 10 :: X))
        = if b = 13 ∧ (bs ++ 13 :: 10 :: X).take 1 = [10]
          then [] :: splitCRLF ((bs ++ 13 :: 10 :: X).drop 1)
          else match splitCRLF (bs ++ 13 :: 10 :: X) with
            | [] => [[b]]
            | g :: gs => (b :: g) :: gs from by rw [splitCRLF]]
    rw [if_neg (fun hc => (h b (by simp)).1 hc.1)]
    rw [ih (fun x hx => h x (by simp [hx]))]

lemma splitCRLF_join (lines : List (List Nat)) (h : ∀ l ∈ lines, noCRLF l)
    (hne : lines ≠ []) : splitCRLF (joinCRLF lines) = lines := by
  induction lines with
  | nil => exact absurd rfl hne
  | cons l ls ih =>
    cases ls with
    | nil => exact splitCRLF_no l (h l (by simp))
    | cons l2 ls2 =>
      rw [show joinCRLF (l :: l2 :: ls2) = l ++ 13 :: 10 :: joinCRLF (l2 :: ls2) from rfl]
      rw [splitCRLF_append l _ (h l (by simp))]
      rw [ih (fun x hx => h x (by simp [hx])) (by simp)]

lemma splitFirstByte_append (c : Nat) (k v : List Nat) (h : c ∉ k) :
    splitFirstByte c (k ++ c :: v) = some (k, v) := by
  induction k with
  | nil =>
    rw [List.nil_append]
    rw [show splitFirstByte c (c :: v)
        = if c = c then some ([], v)
          else match splitFirstByte c v with
            | none => none
            | some (a, d) => some (c :: a, d) from by rw [splitFirstByte]]
    rw [if_pos rfl]
  | cons b bs ih =>
    have hb : b ≠ c := fun hbc => h (by simp [hbc])
    rw [List.cons_append]
    rw [show splitFirstByte c (b :: (bs ++ c :: v))
        = if b = c then some ([], bs ++ c :: v)
          else match splitFirstByte c (bs ++ c :: v) with
            | none => none
            | some (a, d) => some (b :: a, d) from by rw [splitFirstByte]]
    rw [if_neg hb, ih (fun hm => h (by simp [hm]))]

lemma find_skip_then_hit (key val : List Nat) (Q : List (List Nat × List Nat)) :
    ∀ P : List (List Nat × List Nat), (∀ e ∈ P, e.1 ≠ key) →
      (P ++ (key, val) :: Q).find? (fun e => e.1 == key) = some (key, val) := by
  intro P
  induction P with
  | nil =>
    intro _
    rw [List.nil_append]
    rw [List.find?_cons_of_pos _ (by simp)]
  | cons e P ih =>
    intro hP
    rw [List.cons_append]
    rw [List.find?_cons_of_neg _ (by simp [hP e (by simp)])]
    exact ih (fun x hx => hP x (by simp [hx]))

lemma lookupHeader_eq (A B : List (List Nat × List Nat)) (key val : List Nat)
    (hB : ∀ e ∈ B, e.1 ≠ key) :
    lookupHeader (A ++ (key, val) :: B) key = some val := by
  unfold lookupHeader
  rw [show (A ++ (key, val) :: B).reverse = B.reverse ++ (key, val) :: A.reverse from by
    simp]
  rw [find_skip_then_hit key val A.reverse B.reverse
    (fun e he => hB e (List.mem_reverse.mp he))]
  rfl

lemma pyStrip_digits (l : List Nat) (h : ∀ b ∈ l, isDigitByte b = true) :
    pyStrip l = l := by
  unfold pyStrip
  rw [dropWhile_space_digits l h,
    dropWhile_space_digits _ (fun b hb => h b (List.mem_reverse.mp hb)),
    List.reverse_reverse]

lemma parsePyNat_of_strip (v : List Nat) (n : Nat)
    (hv : pyStrip v = natDecBytes n) : parsePyNat v = some n := by
  unfold parsePyNat
  rw [hv]
  rw [if_neg (by simp [List.isEmpty_iff, natDecBytes_ne_nil n]),
    if_pos (by rw [List.all_eq_true]; exact natDecBytes_digits n),
    digitsVal_natDecBytes]

/-- Decoding one well-formed frame: header lines (any of which may use any
casing of `Content-Length`, with other headers ignored), the blank line, the
JSON body of the announced length, and arbitrary trailing bytes. -/
lemma decodeSync_frame (pre post : List (List Nat)) (k v : List Nat) (m : Json)
    (r : List Nat)
    (hm : Json.wf m = true)
    (hk : lowerBytes (pyStrip k) = strBytes "content-length")
    (hkcr : noCRLF k) (hkcolon : 58 ∉ k)
    (hv : pyStrip v = natDecBytes (Json.dumps m).length)
    (hvcr : noCRLF v)
    (hothers : ∀ l ∈ pre ++ post, l ≠ [] ∧ noCRLF l ∧
      ∀ kv2, parseHeaderLine l = some kv2 → kv2.1 ≠ strBytes "content-length") :
    JSONRPCProtocol.decodeSync
      (joinCRLF (pre ++ (k ++ 58 :: v) :: post)
        ++ 13 :: 10 :: 13 :: 10 :: (Json.dumps m ++ r))
      = (some m, r) := by
  have hkeyline_cr : noCRLF (k ++ 58 :: v) := by
    intro b hb
    rcases List.mem_append.mp hb with h | h
    · exact hkcr b h
    · rcases List.mem_cons.mp h with h | h
      · omega
      · exact hvcr b h
  have hall : ∀ l ∈ pre ++ (k ++ 58 :: v) :: post, l ≠ [] ∧ noCRLF l := by
    intro l hl
    rcases List.mem_append.mp hl with h | h
    · exact ⟨(hothers l (List.mem_append.mpr (Or.inl h))).1,
        (hothers l (List.mem_append.mpr (Or.inl h))).2.1⟩
    · rcases List.mem_cons.mp h with h | h
      · exact h ▸ ⟨by simp, hkeyline_cr⟩
      · exact ⟨(hothers l (List.mem_append.mpr (Or.inr h))).1,
          (hothers l (List.mem_append.mpr (Or.inr h))).2.1⟩
  have hfind := findCRLF2_hdr (pre ++ (k ++ 58 :: v) :: post) (Json.dumps m ++ r) hall
  have hsplit : splitCRLF (joinCRLF (pre ++ (k ++ 58 :: v) :: post))
      = pre ++ (k ++ 58 :: v) :: post :=
    splitCRLF_join _ (fun l hl => (hall l hl).2) (by simp)
  have hkey : parseHeaderLine (k ++ 58 :: v)
      = some (strBytes "content-length", natDecBytes (Json.dumps m).length) := by
    unfold parseHeaderLine
    rw [splitFirstByte_append 58 k v hkcolon]
    try simp only []
    rw [hk, hv]
  have hBne : ∀ e ∈ post.filterMap parseHeaderLine,
      e.1 ≠ strBytes "content-length" := by
    intro e he
    obtain ⟨l, hl, hpl⟩ := List.mem_filterMap.mp he
    exact (hothers l (List.mem_append.mpr (Or.inr hl))).2.2 e hpl
  have hparse : parsePyNat (natDecBytes (Json.dumps m).length)
      = some (Json.dumps m).length :=
    parsePyNat_of_strip _ _ (pyStrip_digits _ (natDecBytes_digits _))
  unfold JSONRPCProtocol.decodeSync
  rw [hfind]
  try simp only []
  rw [List.take_left]
  unfold parseHeaders
  rw [hsplit, List.filterMap_append, List.filterMap_cons_some hkey]
  rw [lookupHeader_eq (pre.filterMap parseHeaderLine)
    (post.filterMap parseHeaderLine) _ _ hBne]
  try simp only []
  rw [hparse]
  try simp only []
  rw [if_neg (show ¬((joinCRLF (pre ++ (k ++ 58 :: v) :: post)
      ++ 13 :: 10 :: 13 :: 10 :: (Json.dumps m ++ r)).length
      < (joinCRLF (pre ++ (k ++ 58 :: v) :: post)).length + 4
        + (Json.dumps m).length) from by
    simp [List.length_append]
    omega)]
  rw [show joinCRLF (pre ++ (k ++ 58 :: v) :: post)
      ++ 13 :: 10 :: 13 :: 10 :: (Json.dumps m ++ r)
      = (joinCRLF (pre ++ (k ++ 58 :: v) :: post) ++ [13, 10, 13, 10])
        ++ (Json.dumps m ++ r) from by simp]
  rw [List.drop_left' (show (joinCRLF (pre ++ (k ++ 58 :: v) :: post)
      ++ [13, 10, 13, 10]).length
      = (joinCRLF (pre ++ (k ++ 58 :: v) :: post)).length + 4 from by simp)]
  rw [List.take_left]
  rw [loads_dumps m hm]
  try simp only []
  rw [show (joinCRLF (pre ++ (k ++ 58 :: v) :: post)).length + 4
        + (Json.dumps m).length
      = (joinCRLF (pre ++ (k ++ 58 :: v) :: post) ++ [13, 10, 13, 10]).length
        + (Json.dumps m).length from by simp]
  rw [List.drop_append, List.drop_left]

/-- C9: decoding the frame produced by `encode(m)` followed by any suffix `r`
yields `(m, r)`; more generally any frame whose header lines contain one
`content-length` header under arbitrary ASCII casing announcing the body
length — every other header line being ignored — decodes the same way; and
the stream decoder returns `none` on EOF whatever headers it has read. -/
theorem lsp_framing :
    (∀ (m : Json) (r : List Nat), Json.wf m = true →
      JSONRPCProtocol.decodeSync (JSONRPCProtocol.encode m ++ r) = (some m, r))
    ∧ (∀ (pre post : List (List Nat)) (k v : List Nat) (m : Json) (r : List Nat),
        Json.wf m = true →
        lowerBytes (pyStrip k) = strBytes "content-length" →
        noCRLF k → 58 ∉ k →
        pyStrip v = natDecBytes (Json.dumps m).length → noCRLF v →
        (∀ l ∈ pre ++ post, l ≠ [] ∧ noCRLF l ∧
          ∀ kv2, parseHeaderLine l = some kv2 →
            kv2.1 ≠ strBytes "content-length") →
        JSONRPCProtocol.decodeSync
          (joinCRLF (pre ++ (k ++ 58 :: v) :: post)
            ++ 13 :: 10 :: 13 :: 10 :: (Json.dumps m ++ r))
          = (some m, r))
    ∧ (∀ (f : Nat) (hs : List (List Nat × List Nat)),
        decodeStreamGo (f + 1) [] hs = none) := by
  refine ⟨?_, ?_, ?_⟩
  · intro m r hm
    have h := decodeSync_frame [] [] (strBytes "Content-Length") (32
        :: natDecBytes (Json.dumps m).length) m r hm (by decide)
      (by unfold noCRLF; decide) (by decide)
      (by
        unfold pyStrip
        rw [show ((32 :: natDecBytes (Json.dumps m).length).dropWhile isSpaceByte)
            = (natDecBytes (Json.dumps m).length).dropWhile isSpaceByte from by
          rw [List.dropWhile_cons, if_pos (by decide)]]
        rw [dropWhile_space_digits _ (natDecBytes_digits _),
          dropWhile_space_digits _ (fun b hb =>
            natDecBytes_digits _ b (List.mem_reverse.mp hb)),
          List.reverse_reverse])
      (by
        intro b hb
        rcases List.mem_cons.mp hb with h | h
        · omega
        · have := natDecBytes_digits (Json.dumps m).length b h
          simp only [isDigitByte, Bool.and_eq_true, decide_eq_true_eq] at this
          omega)
      (by intro l hl; simp at hl)
    rw [show joinCRLF ([] ++ (strBytes "Content-Length"
          ++ 58 :: 32 :: natDecBytes (Json.dumps m).length) :: [])
        = strBytes "Content-Length"
          ++ 58 :: 32 :: natDecBytes (Json.dumps m).length from rfl] at h
    rw [show JSONRPCProtocol.encode m ++ r
        = (strBytes "Content-Length"
            ++ 58 :: 32 :: natDecBytes (Json.dumps m).length)
          ++ 13 :: 10 :: 13 :: 10 :: (Json.dumps m ++ r) from by
      unfold JSONRPCProtocol.encode
      simp [strBytes]]
    exact h
  · intro pre post k v m r hm hk hkcr hkcolon hv hvcr hothers
    exact decodeSync_frame pre post k v m r hm hk hkcr hkcolon hv hvcr hothers
  · intro f hs
    rw [decodeStreamGo]
    rfl

theorem lsp_framing_witness :
    JSONRPCProtocol.decodeSync (JSONRPCProtocol.encode Json.null ++ [13])
      = (some Json.null, [13])
    ∧ JSONRPCProtocol.decodeSync
        (joinCRLF ([[88]] ++ (strBytes "CONTENT-LENGTH" ++ 58 :: [32, 52]) :: [])
          ++ 13 :: 10 :: 13 :: 10 :: (Json.dumps Json.null ++ [13]))
        = (some Json.null, [13])
    ∧ decodeStreamGo 1 [] [] = none := by
  have h4 : natDecBytes (Json.dumps Json.null).length = [52] := by
    rw [show (Json.dumps Json.null).length = 4 from rfl]
    simp [natDecBytes, natDecDigitsRev]
  refine ⟨lsp_framing.1 Json.null [13] (by decide),
    lsp_framing.2.1 [[88]] [] (strBytes "CONTENT-LENGTH") [32, 52] Json.null [13]
      (by decide) (by decide) (by unfold noCRLF; decide) (by decide)
      (by rw [h4]; decide) (by unfold noCRLF; decide) ?_,
    lsp_framing.2.2 0 []⟩
  intro l hl
  rw [show ([[88]] : List (List Nat)) ++ [] = [[88]] from rfl] at hl
  rw [List.mem_singleton] at hl
  subst hl
  refine ⟨by decide, by unfold noCRLF; decide, ?_⟩
  intro kv2 hkv
  rw [show parseHeaderLine [88] = none from rfl] at hkv
  exact Option.noConfusion hkv

end Pulsar
